import Mathlib

/-!
Verification of the osa-backend enrollment/approval and settings-merge
workflow.  The definitions below are a shallow embedding of the Python
source: `app/services/settings_service.py`, `app/api/v1/routes/admin.py`,
`app/api/v1/routes/auth.py` and `app/api/v1/routes/teachers.py`.

Modelling conventions.
* A SQLAlchemy table is a `List` of row structures; `query(...).first()`
  becomes `List.find?`, `query(...).all()` becomes `List.filter`.
* The session is created with `autoflush=False` (`app/core/database.py`),
  so queries issued during a request see only the committed state: rows
  added with `db.add` are kept in a separate `added` accumulator and are
  appended to the table at commit time, while in-place attribute updates
  on loaded rows are applied directly to the committed list (the ORM
  identity map returns the already-modified object).
* An endpoint that raises `HTTPException` before `db.commit()` leaves the
  database unchanged: `get_db` closes the session in a `finally` block,
  which rolls back all uncommitted work.  Hence each endpoint is a
  function `AppDB → Except ApiError AppDB`, and an `.error` outcome means
  the state is the pre-call state.
* The single relevant database-level uniqueness constraint is
  `uq_parent_student` on `parent_students (parent_id, student_id)`
  (`app/models/parent_student.py`); its commit-time check is modelled
  explicitly.  `enrollments` and `exam_results` have no such constraint.
-/

/-- JSON-like values stored in `PlatformSetting.value`.  Python `dict`s are
modelled as insertion-ordered association lists. -/
inductive Val where
  | vint : Int → Val
  | vstr : String → Val
  | vbool : Bool → Val
  | vnull : Val
  | vlist : List Val → Val
  | vdict : List (String × Val) → Val

/-- A Python dict of JSON values. -/
abbrev Dict := List (String × Val)

/-- `d.get(k)` on a Python dict: value of the first (unique) matching key. -/
def dictGet (d : Dict) (k : String) : Option Val :=
  match d.find? (fun p => p.1 == k) with
  | some p => some p.2
  | none => none

/-- `d[k] = v` on a Python dict: replace the value in place when the key is
present, otherwise append the pair at the end (insertion order). -/
def dictSet (d : Dict) (k : String) (v : Val) : Dict :=
  match d with
  | [] => [(k, v)]
  | p :: rest => if p.1 == k then (k, v) :: rest else p :: dictSet rest k v

/-- `{**a, **b}` on Python dicts: start from `a` and assign every pair of
`b` in order. -/
def dictUnion (a b : Dict) : Dict :=
  b.foldl (fun acc p => dictSet acc p.1 p.2) a

/-- One iteration of the `merge_dict` loop
(`for key, value in overrides.items()` in
`app/services/settings_service.py`): when both the override value and the
current merged value are mappings, merge them one level
(`{**nested_default, **value}`), otherwise assign the override value. -/
def mergeStep (merged : Dict) (p : String × Val) : Dict :=
  match p.2, dictGet merged p.1 with
  | Val.vdict value, some (Val.vdict nested_default) =>
    dictSet merged p.1 (Val.vdict (dictUnion nested_default value))
  | _, _ => dictSet merged p.1 p.2

/-- `merge_dict(defaults, overrides)` from
`app/services/settings_service.py`.  `overrides` is `Optional[Dict]`; the
Python guard `if not overrides` also catches the empty dict. -/
def merge_dict (defaults : Dict) (overrides : Option Dict) : Dict :=
  match overrides with
  | none => defaults
  | some ov =>
    if ov.isEmpty then defaults
    else ov.foldl mergeStep defaults

/-- A row of the `platform_settings` table (`app/models/platform_setting.py`).
The `value` column is declared `nullable=False`, so it is a plain `Dict`;
the code's defensive `setting.value or {}` is the identity on dicts
(an empty dict is falsy in Python, and `{} or {}` is `{}`). -/
structure SettingRow where
  key : String
  value : Dict
  description : Option String

/-- The `platform_settings` table. -/
abbrev SettingsDB := List SettingRow

/-- Replace the first element satisfying `p` by its image under `f`
(mutating the row object returned by `query(...).first()`). -/
def updateFirst {α : Type} (p : α → Bool) (f : α → α) : List α → List α
  | [] => []
  | x :: xs => if p x then f x :: xs else x :: updateFirst p f xs

/-- Replace the last element satisfying `p` by its image under `f`. -/
def updateLast {α : Type} (p : α → Bool) (f : α → α) (l : List α) : List α :=
  (updateFirst p f l.reverse).reverse

/-- `get_platform_setting(db, key, fallback)` from
`app/services/settings_service.py`: on a miss, insert a row seeded with
`fallback` and return `fallback`; on a hit, return
`merge_dict(fallback, setting.value or {})`.  Returns the produced dict
together with the committed database state. -/
def get_platform_setting (db : SettingsDB) (key : String) (fallback : Dict) :
    Dict × SettingsDB :=
  match db.find? (fun r => r.key == key) with
  | none => (fallback, db ++ [⟨key, fallback, none⟩])
  | some setting => (merge_dict fallback (some setting.value), db)

/-- In-place row mutation performed by `save_platform_setting` on an
existing row: `setting.value = value`, and `setting.description =
description` only when one was provided. -/
def saveUpdateRow (value : Dict) (description : Option String)
    (r : SettingRow) : SettingRow :=
  { r with
    value := value
    description := match description with
      | some d => some d
      | none => r.description }

/-- `save_platform_setting(db, key, value, description)`: upsert by key;
an existing row gets the new `value` (and the new `description` when one
is provided), otherwise a fresh row is inserted. -/
def save_platform_setting (db : SettingsDB) (key : String) (value : Dict)
    (description : Option String) : Dict × SettingsDB :=
  match db.find? (fun r => r.key == key) with
  | some _ =>
    (value, updateFirst (fun r => r.key == key) (saveUpdateRow value description) db)
  | none => (value, db ++ [⟨key, value, description⟩])

/-- A row of `users` (`app/models/user.py`): only the columns read by the
modelled endpoints are kept. -/
structure UserRow where
  id : Nat
  email : String
  hashedPassword : String
  role : String
  isActive : Bool
deriving DecidableEq

/-- A row of `courses` (`app/models/course.py`). -/
structure CourseRow where
  id : Nat
  teacherId : Nat
deriving DecidableEq

/-- A row of the legacy `classes` table (`app/models/class_model.py`). -/
structure ClassRow where
  id : Nat
  courseId : Nat
deriving DecidableEq

/-- A row of `enrollments` (`app/models/enrollment.py`).  `classId` models
the nullable `active_class_id` column. -/
structure EnrollmentRow where
  studentId : Nat
  courseId : Nat
  classId : Option Nat
  isActive : Bool
deriving DecidableEq

/-- A row of `parent_students` (`app/models/parent_student.py`). -/
structure ParentStudentRow where
  parentId : Nat
  studentId : Nat
deriving DecidableEq

/-- A row of `subjects` (`app/models/subject.py`): columns used by teacher
reassignment. -/
structure SubjectRow where
  id : Nat
  courseId : Nat
  instructorId : Option Nat
deriving DecidableEq

/-- A row of `live_classes`: columns used by teacher reassignment. -/
structure LiveClassRow where
  id : Nat
  teacherId : Nat
deriving DecidableEq

/-- A row of `lesson_answers`: columns used by teacher reassignment. -/
structure LessonAnswerRow where
  id : Nat
  teacherId : Nat
deriving DecidableEq

/-- A row of `exams` (`app/models/exam.py`): columns used by the teacher
results endpoint. -/
structure ExamRow where
  id : Nat
  courseId : Nat
  teacherId : Nat
  isPublished : Bool
deriving DecidableEq

/-- A row of `exam_results` (`app/models/exam_result.py`).  Timestamps are
modelled as abstract `Nat` instants. -/
structure ExamResultRow where
  examId : Nat
  studentId : Nat
  score : Int
  maxScore : Option Int
  status : Option String
  feedback : Option String
  publishedAt : Option Nat
deriving DecidableEq

/-- The committed relational state touched by the modelled endpoints. -/
structure AppDB where
  users : List UserRow
  courses : List CourseRow
  classes : List ClassRow
  enrollments : List EnrollmentRow
  parentLinks : List ParentStudentRow
  subjects : List SubjectRow
  liveClasses : List LiveClassRow
  lessonAnswers : List LessonAnswerRow
  exams : List ExamRow
  examResults : List ExamResultRow
deriving DecidableEq

/-- Error outcomes of an endpoint, mirroring the raised `HTTPException`s
plus the commit-time `IntegrityError` (surfaced as a 500). -/
inductive ApiError where
  | notFound : String → ApiError
  | badRequest : String → ApiError
  | forbidden : String → ApiError
  | integrityError : ApiError
deriving DecidableEq

/-- One item of `ApproveUserPayload.course_assignments`
(`CourseAssignmentPayload` in `admin.py`). -/
structure CourseAssignment where
  courseId : Nat
  classId : Option Nat
deriving DecidableEq

/-- `ApproveUserPayload` from `admin.py`. -/
structure ApprovePayload where
  courseAssignments : List CourseAssignment
  childIds : List Nat
  activate : Bool
deriving DecidableEq

/-- The active-enrollment filter used by the admin queries:
`Enrollment.student_id == sid, Enrollment.course_id == cid,
Enrollment.is_active.is_(True)`. -/
def isActFor (sid cid : Nat) (e : EnrollmentRow) : Bool :=
  e.studentId == sid && e.courseId == cid && e.isActive

/-- The class-membership check shared by `approve_user` and
`update_student_enrollments`: a `Class` row with the given id must belong
to the selected course, else 404. -/
def checkClassBelongs (db : AppDB) (classId : Option Nat) (courseId : Nat) :
    Except ApiError Unit :=
  match classId with
  | none => .ok ()
  | some cid =>
    match db.classes.find? (fun c => c.id == cid && c.courseId == courseId) with
    | some _ => .ok ()
    | none => .error (.notFound ("Class does not belong to the selected course"))

/-- The per-assignment loop of the student branch of `approve_user`
(`admin.py`).  `orig` carries the committed enrollment rows (receiving the
in-place `class_id` updates), `added` the rows pending insertion; with
`autoflush=False` the enrollment query only sees `orig`.  The committed
query matches on `student_id`/`course_id`/`is_active`, none of which this
loop ever modifies, so matching against the current `orig` is faithful. -/
def approveAssignLoop (db : AppDB) (sid : Nat) :
    List EnrollmentRow → List EnrollmentRow → List CourseAssignment →
    Except ApiError (List EnrollmentRow × List EnrollmentRow)
  | orig, added, [] => .ok (orig, added)
  | orig, added, a :: rest =>
    match db.courses.find? (fun c => c.id == a.courseId) with
    | none => .error (.notFound ("Course not found"))
    | some course =>
      match checkClassBelongs db a.classId course.id with
      | .error e => .error e
      | .ok _ =>
        if orig.any (isActFor sid course.id) then
          approveAssignLoop db sid
            (match a.classId with
              | some _ =>
                updateFirst (isActFor sid course.id)
                  (fun e => { e with classId := a.classId }) orig
              | none => orig)
            added rest
        else
          approveAssignLoop db sid orig
            (added ++ [⟨sid, course.id, a.classId, true⟩]) rest

/-- The per-child loop of the parent branch of `approve_user`.  The
existing-link query sees only the committed `db.parentLinks`
(`autoflush=False`), never the pending `added` rows. -/
def approveChildLoop (db : AppDB) (parentId : Nat) :
    List ParentStudentRow → List Nat →
    Except ApiError (List ParentStudentRow)
  | added, [] => .ok added
  | added, c :: rest =>
    match db.users.find? (fun u => u.id == c && u.role == "student") with
    | none => .error (.notFound ("Student not found"))
    | some child =>
      if db.parentLinks.any
          (fun l => l.parentId == parentId && l.studentId == child.id) then
        approveChildLoop db parentId added rest
      else
        approveChildLoop db parentId (added ++ [⟨parentId, child.id⟩]) rest

/-- Commit-time check of the `uq_parent_student` unique constraint for the
rows being inserted: each new row must collide neither with a committed
row nor with another new row. -/
def parentInsertOk (committed added : List ParentStudentRow) : Bool :=
  ((added.map fun l => (l.parentId, l.studentId)).Nodup : Bool)
    && added.all (fun a =>
      !(committed.any fun l =>
        l.parentId == a.parentId && l.studentId == a.studentId))

/-- Set the `is_active` column of the user with the given id. -/
def setUserActive (users : List UserRow) (userId : Nat) (active : Bool) :
    List UserRow :=
  users.map (fun u => if u.id == userId then { u with isActive := active } else u)

/-- The student branch of `approve_user`: only a user with role
`student` walks the course-assignment loop. -/
def approveEnrollPart (db : AppDB) (user : UserRow) (payload : ApprovePayload) :
    Except ApiError (List EnrollmentRow × List EnrollmentRow) :=
  if user.role == "student" then
    approveAssignLoop db user.id db.enrollments [] payload.courseAssignments
  else .ok (db.enrollments, [])

/-- The parent branch of `approve_user`: only a user with role `parent`
walks the child-link loop. -/
def approveLinkPart (db : AppDB) (user : UserRow) (payload : ApprovePayload) :
    Except ApiError (List ParentStudentRow) :=
  if user.role == "parent" then
    approveChildLoop db user.id [] payload.childIds
  else .ok []

/-- `approve_user` (`POST /admin/users/{user_id}/approve`, `admin.py`):
404 when the user is absent, 400 when re-activating an active user, then
the role-specific branches, and a single commit at the end (which may
fail on the `uq_parent_student` constraint). -/
def approve_user (db : AppDB) (userId : Nat) (payload : ApprovePayload) :
    Except ApiError AppDB :=
  match db.users.find? (fun u => u.id == userId) with
  | none => .error (.notFound ("User not found"))
  | some user =>
    if user.isActive && payload.activate then
      .error (.badRequest ("User is already active"))
    else
      match approveEnrollPart db user payload with
      | .error e => .error e
      | .ok (orig, addedEnr) =>
        match approveLinkPart db user payload with
        | .error e => .error e
        | .ok addedLinks =>
          if parentInsertOk db.parentLinks addedLinks then
            .ok { db with
              users := setUserActive db.users userId payload.activate
              enrollments := orig ++ addedEnr
              parentLinks := db.parentLinks ++ addedLinks }
          else .error .integrityError

/-- The `existing` query of `update_student_enrollments`: course ids of
the enrollments of the student that are active in the committed state —
the key set of the Python `existing_map`. -/
def activeCourseIds (db : AppDB) (sid : Nat) : List Nat :=
  (db.enrollments.filter (fun e => e.studentId == sid && e.isActive)).map
    (fun e => e.courseId)

/-- The deactivation pass of `update_student_enrollments`: every committed
active enrollment of the student whose course is not in the incoming list
has `is_active` set to `False`; all other rows are untouched. -/
def deactivateMissing (db : AppDB) (sid : Nat) (incoming : List Nat) :
    List EnrollmentRow :=
  db.enrollments.map (fun e =>
    if e.studentId == sid && e.isActive && !(incoming.contains e.courseId) then
      { e with isActive := false }
    else e)

/-- The per-assignment loop of `update_student_enrollments`.  `domain` is
the set of course ids of the enrollments that were active when the
endpoint first queried them — the key set of the Python `existing_map`.
For a course in `domain` the row object held by `existing_map` (the last
committed active row for that course, since the dict comprehension keeps
the last entry per key) is mutated: `is_active = True`,
`class_id = assignment.class_id`; otherwise a fresh row is added.  The
mutated row is located in `orig` by the currently-active filter, which on
courses of the incoming list coincides with committed-active: the
deactivation pass only touched courses outside the incoming list and this
loop never deactivates a row. -/
def reconcileLoop (db : AppDB) (sid : Nat) (domain : List Nat) :
    List EnrollmentRow → List EnrollmentRow → List CourseAssignment →
    Except ApiError (List EnrollmentRow × List EnrollmentRow)
  | orig, added, [] => .ok (orig, added)
  | orig, added, a :: rest =>
    match db.courses.find? (fun c => c.id == a.courseId) with
    | none => .error (.notFound ("Course not found"))
    | some course =>
      match checkClassBelongs db a.classId course.id with
      | .error e => .error e
      | .ok _ =>
        if domain.contains course.id then
          reconcileLoop db sid domain
            (updateLast (isActFor sid course.id)
              (fun e => { e with isActive := true, classId := a.classId }) orig)
            added rest
        else
          reconcileLoop db sid domain orig
            (added ++ [⟨sid, course.id, a.classId, true⟩]) rest

/-- `update_student_enrollments`
(`PUT /admin/students/{student_id}/enrollments`, `admin.py`): query the
student, collect the active enrollments, deactivate those whose course is
not in the incoming list, then upsert every incoming assignment. -/
def update_student_enrollments (db : AppDB) (studentId : Nat)
    (assignments : List CourseAssignment) : Except ApiError AppDB :=
  match db.users.find? (fun u => u.id == studentId && u.role == "student") with
  | none => .error (.notFound ("Student not found"))
  | some student =>
    match reconcileLoop db student.id (activeCourseIds db student.id)
        (deactivateMissing db student.id (assignments.map (fun a => a.courseId)))
        [] assignments with
    | .error e => .error e
    | .ok (orig, added) => .ok { db with enrollments := orig ++ added }

/-- `_ensure_teacher_exists` (`admin.py`): 404 unless a user with the id
exists and has role `teacher`.  The `is_active` flag is NOT inspected. -/
def ensure_teacher_exists (db : AppDB) (teacherId : Nat) :
    Except ApiError UserRow :=
  match db.users.find? (fun u => u.id == teacherId) with
  | none => .error (.notFound ("Teacher not found"))
  | some teacher =>
    if teacher.role == "teacher" then .ok teacher
    else .error (.notFound ("Teacher not found"))

/-- `reassign_teacher_and_delete`
(`POST /admin/teachers/{teacher_id}/reassign`, `admin.py`): ensure the
original id is a teacher, reject equal ids with 400, ensure the
replacement id is a teacher, reject an inactive replacement with 400,
then repoint courses, subjects, live classes, exams and lesson answers
and delete the original user row, all in one commit. -/
def reassign_teacher_and_delete (db : AppDB) (teacherId : Nat)
    (replacementTeacherId : Nat) : Except ApiError AppDB :=
  match ensure_teacher_exists db teacherId with
  | .error e => .error e
  | .ok teacher =>
    if teacherId == replacementTeacherId then
      .error (.badRequest ("Replacement teacher must be different"))
    else
      match ensure_teacher_exists db replacementTeacherId with
      | .error e => .error e
      | .ok replacement =>
        if !replacement.isActive then
          .error (.badRequest ("Replacement teacher must be active"))
        else
          .ok { db with
            courses := db.courses.map (fun c =>
              if c.teacherId == teacher.id then { c with teacherId := replacement.id } else c)
            subjects := db.subjects.map (fun s =>
              if s.instructorId == some teacher.id then { s with instructorId := some replacement.id } else s)
            liveClasses := db.liveClasses.map (fun l =>
              if l.teacherId == teacher.id then { l with teacherId := replacement.id } else l)
            exams := db.exams.map (fun e =>
              if e.teacherId == teacher.id then { e with teacherId := replacement.id } else e)
            lessonAnswers := db.lessonAnswers.map (fun l =>
              if l.teacherId == teacher.id then { l with teacherId := replacement.id } else l)
            users := db.users.filter (fun u => !(u.id == teacher.id)) }

/-- Outcome of `POST /auth/login` (`auth.py`), abstracting the issued
token away. -/
inductive LoginResult where
  | unauthenticated : LoginResult
  | forbidden : LoginResult
  | success : LoginResult
deriving DecidableEq

/-- `login` (`auth.py`).  The bcrypt `verify_password` check is abstracted
as the function parameter `verify` (password, stored hash ↦ match).  The
user is looked up by email; a missing user or a failed password check
yields 401; an inactive account with a correct password yields 403. -/
def login (verify : String → String → Bool) (users : List UserRow)
    (email password : String) : LoginResult :=
  match users.find? (fun u => u.email == email) with
  | none => .unauthenticated
  | some user =>
    if !(verify password user.hashedPassword) then .unauthenticated
    else if !user.isActive then .forbidden
    else .success

/-- `_get_teacher_course_ids` (`teachers.py`): ids of the courses owned by
the teacher. -/
def get_teacher_course_ids (db : AppDB) (teacherId : Nat) : List Nat :=
  (db.courses.filter (fun c => c.teacherId == teacherId)).map (fun c => c.id)

/-- One item of `ExamResultBulkCreate.results` (`schemas/teacher.py`). -/
structure ExamResultPayload where
  studentId : Nat
  score : Int
  maxScore : Option Int
  status : Option String
  feedback : Option String
  publishedAt : Option Nat
deriving DecidableEq

/-- The per-payload loop of `upsert_exam_results` (`teachers.py`): check
the student has an active enrollment in the exam course, then update the
committed row for `(exam_id, student_id)` in place or add a fresh row.
With `autoflush=False` the lookup sees only the committed `orig` rows;
the match columns `exam_id`/`student_id` are never modified, so matching
against the current `orig` is faithful.  `published_at` falls back to
`now` via the Python `result_payload.published_at or now`. -/
def resultsLoop (db : AppDB) (examId : Nat) (examCourseId : Nat) (now : Nat) :
    List ExamResultRow → List ExamResultRow → List ExamResultPayload →
    Except ApiError (List ExamResultRow × List ExamResultRow)
  | orig, added, [] => .ok (orig, added)
  | orig, added, rp :: rest =>
    if !(db.enrollments.any (fun e =>
        e.studentId == rp.studentId && e.courseId == examCourseId && e.isActive)) then
      .error (.notFound ("Student not found in your courses"))
    else
      if orig.any (fun r => r.examId == examId && r.studentId == rp.studentId) then
        resultsLoop db examId examCourseId now
          (updateFirst (fun r => r.examId == examId && r.studentId == rp.studentId)
            (fun r =>
              { r with
                score := rp.score
                maxScore := rp.maxScore
                status := rp.status
                feedback := rp.feedback
                publishedAt := some (rp.publishedAt.getD now) })
            orig)
          added rest
      else
        resultsLoop db examId examCourseId now orig
          (added ++ [⟨examId, rp.studentId, rp.score, rp.maxScore, rp.status,
            rp.feedback, some (rp.publishedAt.getD now)⟩]) rest

/-- `upsert_exam_results` (`POST /teachers/exams/{exam_id}/results`,
`teachers.py`): 404 unless the exam exists and belongs to the requesting
teacher, 403 unless the exam course is among the teacher's courses, then
the bulk upsert loop, and finally `exam.is_published = True` on the loaded
exam row, committed together. -/
def upsert_exam_results (db : AppDB) (teacherId examId : Nat)
    (results : List ExamResultPayload) (now : Nat) : Except ApiError AppDB :=
  match db.exams.find? (fun e => e.id == examId && e.teacherId == teacherId) with
  | none => .error (.notFound ("Exam not found"))
  | some exam =>
    if !((get_teacher_course_ids db teacherId).contains exam.courseId) then
      .error (.forbidden ("Course not assigned to you"))
    else
      match resultsLoop db examId exam.courseId now db.examResults [] results with
      | .error e => .error e
      | .ok (orig, added) =>
        .ok { db with
          examResults := orig ++ added
          exams := updateFirst (fun e => e.id == examId && e.teacherId == teacherId)
            (fun e => { e with isPublished := true }) db.exams }

/-- An admin call affecting enrollments or parent links, for stating
sequence-level invariants. -/
inductive AdminOp where
  | approve : Nat → ApprovePayload → AdminOp
  | updateEnrollments : Nat → List CourseAssignment → AdminOp

/-- Observable effect of one admin call: on an error response the session
is rolled back, so the committed state is unchanged. -/
def runOp (db : AppDB) : AdminOp → AppDB
  | .approve userId payload =>
    match approve_user db userId payload with
    | .ok db2 => db2
    | .error _ => db
  | .updateEnrollments sid assignments =>
    match update_student_enrollments db sid assignments with
    | .ok db2 => db2
    | .error _ => db

/-- Observable effect of a sequence of admin calls. -/
def runOps (db : AppDB) (ops : List AdminOp) : AppDB :=
  ops.foldl runOp db

/-- Number of active enrollment rows for a (student, course) pair. -/
def activeCount (l : List EnrollmentRow) (sid cid : Nat) : Nat :=
  (l.filter (isActFor sid cid)).length

/-- Number of enrollment rows (active or not) for a (student, course) pair. -/
def rowCount (l : List EnrollmentRow) (sid cid : Nat) : Nat :=
  (l.filter (fun e => e.studentId == sid && e.courseId == cid)).length

/-- Number of parent-student link rows for a (parent, student) pair. -/
def linkCount (l : List ParentStudentRow) (pid sid : Nat) : Nat :=
  (l.filter (fun x => x.parentId == pid && x.studentId == sid)).length

/-- The spec invariant: at most one active enrollment per
(student, course) pair. -/
def EnrInv (db : AppDB) : Prop :=
  ∀ sid cid, activeCount db.enrollments sid cid ≤ 1

/-- A payload whose course-assignment list repeats no course id; the
no-duplication proviso under which the enrollment invariant is preserved. -/
def OpNodup : AdminOp → Prop
  | .approve _ payload => (payload.courseAssignments.map (fun a => a.courseId)).Nodup
  | .updateEnrollments _ assignments => (assignments.map (fun a => a.courseId)).Nodup

/-! ### Generic list lemmas about the update-in-place helpers -/

theorem updateFirst_length {α : Type} (p : α → Bool) (f : α → α) (l : List α) :
    (updateFirst p f l).length = l.length := by
  induction l with
  | nil => rfl
  | cons x xs ih =>
    simp only [updateFirst]
    by_cases h : p x
    · simp [h]
    · simp [h, ih]

theorem updateFirst_of_not_any {α : Type} (p : α → Bool) (f : α → α)
    (l : List α) (h : l.any p = false) : updateFirst p f l = l := by
  induction l with
  | nil => rfl
  | cons x xs ih =>
    simp only [List.any_cons, Bool.or_eq_false_iff] at h
    simp only [updateFirst, h.1, Bool.false_eq_true, if_false]
    rw [ih h.2]

theorem updateFirst_map {α β : Type} (p : α → Bool) (f : α → α) (g : α → β)
    (h : ∀ x, p x = true → g (f x) = g x) (l : List α) :
    (updateFirst p f l).map g = l.map g := by
  induction l with
  | nil => rfl
  | cons x xs ih =>
    simp only [updateFirst]
    by_cases hp : p x
    · simp [hp, h x hp]
    · simp [hp, ih]

theorem updateLast_map {α β : Type} (p : α → Bool) (f : α → α) (g : α → β)
    (h : ∀ x, p x = true → g (f x) = g x) (l : List α) :
    (updateLast p f l).map g = l.map g := by
  simp only [updateLast]
  rw [List.map_reverse, updateFirst_map p f g h, List.map_reverse,
    List.reverse_reverse]

theorem updateFirst_find? {α : Type} (p : α → Bool) (f : α → α)
    (h : ∀ x, p (f x) = p x) (l : List α) :
    (updateFirst p f l).find? p = (l.find? p).map f := by
  induction l with
  | nil => rfl
  | cons x xs ih =>
    simp only [updateFirst]
    by_cases hp : p x
    · simp [List.find?_cons, hp, h]
    · simp [List.find?_cons, hp, ih]

theorem updateFirst_append_of_split {α : Type} (p : α → Bool) (f : α → α)
    (l₁ l₂ : List α) (y : α) (h₁ : ∀ z ∈ l₁, p z = false) (hy : p y = true) :
    updateFirst p f (l₁ ++ y :: l₂) = l₁ ++ f y :: l₂ := by
  induction l₁ with
  | nil => simp [updateFirst, hy]
  | cons x xs ih =>
    have hx : p x = false := h₁ x (List.mem_cons_self x xs)
    simp only [List.cons_append, updateFirst, hx, Bool.false_eq_true, if_false,
      List.append_eq]
    rw [ih (fun z hz => h₁ z (List.mem_cons_of_mem x hz))]

theorem mem_updateFirst {α : Type} (p : α → Bool) (f : α → α) (l : List α)
    (x : α) (hx : x ∈ updateFirst p f l) :
    x ∈ l ∨ ∃ y ∈ l, p y = true ∧ x = f y := by
  induction l with
  | nil => simp [updateFirst] at hx
  | cons z zs ih =>
    simp only [updateFirst] at hx
    by_cases hp : p z
    · simp only [hp, if_true, List.mem_cons] at hx
      rcases hx with h | h
      · exact Or.inr ⟨z, List.mem_cons_self z zs, hp, h⟩
      · exact Or.inl (List.mem_cons_of_mem z h)
    · simp only [hp, Bool.false_eq_true, if_false, List.mem_cons] at hx
      rcases hx with h | h
      · exact Or.inl (h ▸ List.mem_cons_self z zs)
      · rcases ih h with h2 | ⟨y, hy, hpy, hxy⟩
        · exact Or.inl (List.mem_cons_of_mem z h2)
        · exact Or.inr ⟨y, List.mem_cons_of_mem z hy, hpy, hxy⟩

/-! ### Lemmas about the dict model and `merge_dict` -/

theorem dictGet_dictSet_self (d : Dict) (k : String) (v : Val) :
    dictGet (dictSet d k v) k = some v := by
  induction d with
  | nil => simp [dictGet, dictSet, List.find?]
  | cons p rest ih =>
    by_cases h : p.1 = k
    · simp [dictGet, dictSet, h, List.find?]
    · have hb : (p.1 == k) = false := beq_eq_false_iff_ne.mpr h
      simp only [dictSet, hb, Bool.false_eq_true, if_false]
      simpa [dictGet, List.find?_cons, hb] using ih

theorem dictGet_dictSet_other (d : Dict) (k k2 : String) (v : Val)
    (h : ¬ k2 = k) : dictGet (dictSet d k v) k2 = dictGet d k2 := by
  induction d with
  | nil =>
    simp [dictGet, dictSet, List.find?, beq_eq_false_iff_ne.mpr (fun e => h e.symm)]
  | cons p rest ih =>
    by_cases hp : p.1 = k
    · have hb2 : (k == k2) = false := beq_eq_false_iff_ne.mpr (fun e => h e.symm)
      have hb3 : (p.1 == k2) = false := by
        subst hp; exact hb2
      simp [dictGet, dictSet, hp, List.find?_cons, hb2, hb3]
    · have hb : (p.1 == k) = false := beq_eq_false_iff_ne.mpr hp
      simp only [dictSet, hb, Bool.false_eq_true, if_false]
      by_cases hq : p.1 = k2
      · simp [dictGet, List.find?_cons, hq]
      · have hbq : (p.1 == k2) = false := beq_eq_false_iff_ne.mpr hq
        simpa [dictGet, List.find?_cons, hbq] using ih

/-- The per-key result of one `merge_dict` iteration, for stating the
claim: a mapping override meeting a mapping default is merged one level,
anything else replaces the default wholesale. -/
def mergedValue (dv : Option Val) (v : Val) : Val :=
  match v, dv with
  | Val.vdict value, some (Val.vdict nested_default) =>
    Val.vdict (dictUnion nested_default value)
  | _, _ => v

theorem mergeStep_eq_dictSet (d : Dict) (k : String) (v : Val) :
    mergeStep d (k, v) = dictSet d k (mergedValue (dictGet d k) v) := by
  cases v with
  | vdict value =>
    cases hg : dictGet d k with
    | none => simp [mergeStep, mergedValue, hg]
    | some w => cases w <;> simp [mergeStep, mergedValue, hg]
  | vint n => cases hg : dictGet d k with
    | none => simp [mergeStep, mergedValue, hg]
    | some w => cases w <;> simp [mergeStep, mergedValue, hg]
  | vstr s => cases hg : dictGet d k with
    | none => simp [mergeStep, mergedValue, hg]
    | some w => cases w <;> simp [mergeStep, mergedValue, hg]
  | vbool b => cases hg : dictGet d k with
    | none => simp [mergeStep, mergedValue, hg]
    | some w => cases w <;> simp [mergeStep, mergedValue, hg]
  | vnull => cases hg : dictGet d k with
    | none => simp [mergeStep, mergedValue, hg]
    | some w => cases w <;> simp [mergeStep, mergedValue, hg]
  | vlist l => cases hg : dictGet d k with
    | none => simp [mergeStep, mergedValue, hg]
    | some w => cases w <;> simp [mergeStep, mergedValue, hg]

theorem dictGet_mergeStep_other (d : Dict) (p : String × Val) (k : String)
    (h : ¬ k = p.1) : dictGet (mergeStep d p) k = dictGet d k := by
  rcases p with ⟨k0, v0⟩
  rw [mergeStep_eq_dictSet]
  exact dictGet_dictSet_other d k0 k _ h

theorem dictGet_foldl_mergeStep_not_mem (o : Dict) (d : Dict) (k : String)
    (h : ¬ k ∈ o.map Prod.fst) :
    dictGet (o.foldl mergeStep d) k = dictGet d k := by
  induction o generalizing d with
  | nil => rfl
  | cons p rest ih =>
    simp only [List.map_cons, List.mem_cons, not_or] at h
    rw [List.foldl_cons, ih (mergeStep d p) h.2, dictGet_mergeStep_other d p k h.1]

theorem merge_dict_some_eq_foldl (d o : Dict) :
    merge_dict d (some o) = o.foldl mergeStep d := by
  cases o with
  | nil => rfl
  | cons p rest => rfl

/-- Per-key description of `merge_dict` on a key present in the
overrides (keys of a Python dict are distinct). -/
theorem merge_dict_get_mem (d o : Dict) (k : String) (v : Val)
    (hnd : (o.map Prod.fst).Nodup) (hmem : (k, v) ∈ o) :
    dictGet (merge_dict d (some o)) k = some (mergedValue (dictGet d k) v) := by
  rw [merge_dict_some_eq_foldl]
  induction o generalizing d with
  | nil => cases hmem
  | cons p rest ih =>
    simp only [List.map_cons, List.nodup_cons] at hnd
    rcases List.mem_cons.mp hmem with heq | hrest
    · have hk : p.1 = k := by rw [← heq]
      have hnotin : ¬ k ∈ rest.map Prod.fst := hk ▸ hnd.1
      rw [List.foldl_cons, dictGet_foldl_mergeStep_not_mem rest _ k hnotin]
      have hpv : p = (k, v) := heq ▸ rfl
      rw [hpv, mergeStep_eq_dictSet, dictGet_dictSet_self]
    · have hkp : ¬ k = p.1 := by
        intro hk
        exact hnd.1 (hk ▸ (List.mem_map.mpr ⟨(k, v), hrest, rfl⟩))
      rw [List.foldl_cons]
      rw [ih (mergeStep d p) hnd.2 hrest, dictGet_mergeStep_other d p k hkp]

/-- Keys absent from the overrides keep their default value. -/
theorem merge_dict_get_not_mem (d o : Dict) (k : String)
    (h : ¬ k ∈ o.map Prod.fst) :
    dictGet (merge_dict d (some o)) k = dictGet d k := by
  rw [merge_dict_some_eq_foldl]
  exact dictGet_foldl_mergeStep_not_mem o d k h

/-- C1: `merge(defaults, overrides)` is a shallow merge: on every
override key whose default and override values are both mappings the two
mappings are merged one level (`mergedValue`), on every other override
key the override value replaces the default wholesale, keys absent from
the overrides keep their default, and the two spec examples — a nested
mapping merged one level deep, a list value replaced whole — compute as
stated. -/
theorem claim_C1_merge_shallow :
    (∀ (d o : Dict) (k : String) (v : Val),
      (o.map Prod.fst).Nodup → (k, v) ∈ o →
      dictGet (merge_dict d (some o)) k = some (mergedValue (dictGet d k) v))
    ∧ (∀ (d o : Dict) (k : String), ¬ k ∈ o.map Prod.fst →
      dictGet (merge_dict d (some o)) k = dictGet d k)
    ∧ merge_dict [("a", Val.vdict [("x", Val.vint 1), ("y", Val.vint 2)])]
        (some [("a", Val.vdict [("x", Val.vint 9)])])
        = [("a", Val.vdict [("x", Val.vint 9), ("y", Val.vint 2)])]
    ∧ merge_dict [("a", Val.vlist [Val.vint 1, Val.vint 2])]
        (some [("a", Val.vlist [Val.vint 9])])
        = [("a", Val.vlist [Val.vint 9])] :=
  ⟨merge_dict_get_mem, merge_dict_get_not_mem, rfl, rfl⟩

/-- Witness for C1 at concrete inputs: the override key `"a"` (a
non-mapping override) replaces the default, and the absent key `"b"`
keeps its default. -/
theorem claim_C1_merge_shallow_witness :
    dictGet (merge_dict [("a", Val.vint 1), ("b", Val.vint 2)]
      (some [("a", Val.vint 9)])) ("a")
      = some (mergedValue (dictGet [("a", Val.vint 1), ("b", Val.vint 2)] ("a"))
          (Val.vint 9))
    ∧ dictGet (merge_dict [("a", Val.vint 1), ("b", Val.vint 2)]
      (some [("a", Val.vint 9)])) ("b")
      = dictGet [("a", Val.vint 1), ("b", Val.vint 2)] ("b") :=
  ⟨claim_C1_merge_shallow.1 [("a", Val.vint 1), ("b", Val.vint 2)]
      [("a", Val.vint 9)] ("a") (Val.vint 9) (by simp) (by simp),
    claim_C1_merge_shallow.2.1 [("a", Val.vint 1), ("b", Val.vint 2)]
      [("a", Val.vint 9)] ("b") (by simp)⟩

/-! ### Settings store round trip (C6) -/

theorem find?_append_of_none {α : Type} (p : α → Bool) (l₁ l₂ : List α)
    (h : l₁.find? p = none) : (l₁ ++ l₂).find? p = l₂.find? p := by
  induction l₁ with
  | nil => rfl
  | cons x xs ih =>
    cases hp : p x with
    | true =>
      rw [List.find?_cons, hp] at h
      exact absurd h (Option.some_ne_none x)
    | false =>
      rw [List.find?_cons, hp] at h
      rw [List.cons_append, List.find?_cons, hp]
      exact ih h

/-- C6: after `save(key, value)`, `get(key, defaults)` returns
`merge(defaults, value)` without touching the store, so repeated reads
return the same result; and on a key with no row, `get` inserts a row
seeded with the defaults and returns `merge(defaults, empty) = defaults`. -/
theorem claim_C6_settings_round_trip :
    (∀ (db : SettingsDB) (k : String) (v d : Dict) (desc : Option String),
      get_platform_setting (save_platform_setting db k v desc).2 k d
        = (merge_dict d (some v), (save_platform_setting db k v desc).2))
    ∧ (∀ (db : SettingsDB) (k : String) (d : Dict),
      (∀ r ∈ db, ¬ r.key = k) →
      get_platform_setting db k d = (d, db ++ [⟨k, d, none⟩])
        ∧ d = merge_dict d (some [])) := by
  constructor
  · intro db k v d desc
    cases hf : db.find? (fun r => r.key == k) with
    | none =>
      have hsave : (save_platform_setting db k v desc).2
          = db ++ [⟨k, v, desc⟩] := by
        simp [save_platform_setting, hf]
      rw [hsave]
      have hfind : (db ++ [(⟨k, v, desc⟩ : SettingRow)]).find?
          (fun r => r.key == k) = some ⟨k, v, desc⟩ := by
        rw [find?_append_of_none _ db _ hf]
        simp [List.find?_cons]
      simp [get_platform_setting, hfind]
    | some r =>
      have hsave : (save_platform_setting db k v desc).2
          = updateFirst (fun r => r.key == k) (saveUpdateRow v desc) db := by
        simp [save_platform_setting, hf]
      rw [hsave]
      have hfind := updateFirst_find? (fun r => r.key == k)
        (saveUpdateRow v desc) (fun x => rfl) db
      rw [hf] at hfind
      simp [get_platform_setting, hfind, saveUpdateRow]
  · intro db k d h
    have hf : db.find? (fun r => r.key == k) = none :=
      List.find?_eq_none.mpr (fun x hx => by
        simpa using fun he => h x hx he)
    refine ⟨by simp [get_platform_setting, hf], rfl⟩

/-- Witness for C6 at concrete inputs. -/
theorem claim_C6_settings_round_trip_witness :
    get_platform_setting
        (save_platform_setting [] ("k") [("a", Val.vint 3)] none).2 ("k")
        [("a", Val.vint 1), ("b", Val.vint 2)]
      = (merge_dict [("a", Val.vint 1), ("b", Val.vint 2)]
          (some [("a", Val.vint 3)]),
        (save_platform_setting [] ("k") [("a", Val.vint 3)] none).2)
    ∧ get_platform_setting [] ("k") [("a", Val.vint 1)]
      = ([("a", Val.vint 1)], [] ++ [⟨"k", [("a", Val.vint 1)], none⟩]) :=
  ⟨claim_C6_settings_round_trip.1 [] ("k") [("a", Val.vint 3)]
      [("a", Val.vint 1), ("b", Val.vint 2)] none,
    (claim_C6_settings_round_trip.2 [] ("k") [("a", Val.vint 1)]
      (by intro r hr; cases hr)).1⟩

/-! ### Login error precedence (C7) -/

/-- C7: the password check takes precedence over the activation check — a
failed password check yields 401 whatever the `is_active` flag is; a
correct password on an inactive account yields 403; and 403 is only ever
produced for a matching user with a passing password check and
`is_active = false`. -/
theorem claim_C7_login_precedence :
    ∀ (verify : String → String → Bool) (users : List UserRow)
      (email pw : String),
      (∀ u, users.find? (fun x => x.email == email) = some u →
        verify pw u.hashedPassword = false →
        login verify users email pw = .unauthenticated)
      ∧ (∀ u, users.find? (fun x => x.email == email) = some u →
        verify pw u.hashedPassword = true → u.isActive = false →
        login verify users email pw = .forbidden)
      ∧ (login verify users email pw = .forbidden →
        ∃ u, users.find? (fun x => x.email == email) = some u
          ∧ verify pw u.hashedPassword = true ∧ u.isActive = false) := by
  intro verify users email pw
  refine ⟨?_, ?_, ?_⟩
  · intro u hu hv
    simp [login, hu, hv]
  · intro u hu hv ha
    simp [login, hu, hv, ha]
  · intro h
    unfold login at h
    cases hu : users.find? (fun x => x.email == email) with
    | none => rw [hu] at h; cases h
    | some u =>
      rw [hu] at h
      refine ⟨u, rfl, ?_⟩
      by_cases hv : verify pw u.hashedPassword
      · simp only [hv, Bool.not_true, Bool.false_eq_true, if_false] at h
        by_cases ha : u.isActive
        · simp [ha] at h
        · exact ⟨hv, by simpa using ha⟩
      · simp [hv] at h

/-- Witness for C7: a user with a wrong password and inactive account is
401, the same user with the right password is 403. -/
theorem claim_C7_login_precedence_witness :
    login (fun p h => p == h) [⟨1, "a@x", "pw", "student", false⟩]
      ("a@x") ("bad") = .unauthenticated
    ∧ login (fun p h => p == h) [⟨1, "a@x", "pw", "student", false⟩]
      ("a@x") ("pw") = .forbidden :=
  ⟨(claim_C7_login_precedence (fun p h => p == h)
      [⟨1, "a@x", "pw", "student", false⟩] ("a@x") ("bad")).1
      ⟨1, "a@x", "pw", "student", false⟩ (by decide) (by decide),
    (claim_C7_login_precedence (fun p h => p == h)
      [⟨1, "a@x", "pw", "student", false⟩] ("a@x") ("pw")).2.1
      ⟨1, "a@x", "pw", "student", false⟩ (by decide) (by decide) (by decide)⟩

/-! ### Exam-result upload (C8, C10) -/

/-- Number of exam-result rows for an (exam, student) pair. -/
def resultCount (l : List ExamResultRow) (eid sid : Nat) : Nat :=
  (l.filter (fun r => r.examId == eid && r.studentId == sid)).length

/-- Inversion of a successful `upsert_exam_results` call: the exam was
found for the teacher, the course check passed, the loop succeeded, and
the new state updates only `examResults` and the found exam's
`is_published` flag. -/
theorem upsert_exam_results_ok (db : AppDB) (tid eid : Nat)
    (results : List ExamResultPayload) (now : Nat) (db2 : AppDB)
    (h : upsert_exam_results db tid eid results now = .ok db2) :
    ∃ exam orig added,
      db.exams.find? (fun e => e.id == eid && e.teacherId == tid) = some exam
      ∧ (get_teacher_course_ids db tid).contains exam.courseId = true
      ∧ resultsLoop db eid exam.courseId now db.examResults [] results
          = .ok (orig, added)
      ∧ db2 = { db with
          examResults := orig ++ added
          exams := updateFirst (fun e => e.id == eid && e.teacherId == tid)
            (fun e => { e with isPublished := true }) db.exams } := by
  unfold upsert_exam_results at h
  split at h
  · cases h
  next exam hfind =>
    split at h
    · cases h
    next hc =>
      split at h
      · cases h
      next orig added hloop =>
        simp only [Except.ok.injEq] at h
        refine ⟨exam, orig, added, hfind, ?_, hloop, h.symm⟩
        cases hcb : (get_teacher_course_ids db tid).contains exam.courseId with
        | true => rfl
        | false => rw [hcb] at hc; cases hc rfl

/-- C10: every successful bulk exam-result upload flips the exam's
`is_published` flag to true — including an upload with an empty results
list, which always succeeds once the exam is found for the teacher and
its course is among the teacher's courses; so an exam with uploaded
results is always published. -/
theorem claim_C10_publish_on_upload :
    ∀ (db : AppDB) (tid eid now : Nat),
      (∀ (results : List ExamResultPayload) (db2 : AppDB),
        upsert_exam_results db tid eid results now = .ok db2 →
        ∃ ex, db2.exams.find? (fun e => e.id == eid && e.teacherId == tid)
            = some ex ∧ ex.isPublished = true)
      ∧ (∀ exam,
        db.exams.find? (fun e => e.id == eid && e.teacherId == tid) = some exam →
        (get_teacher_course_ids db tid).contains exam.courseId = true →
        ∃ db3, upsert_exam_results db tid eid [] now = .ok db3) := by
  intro db tid eid now
  constructor
  · intro results db2 h
    rcases upsert_exam_results_ok db tid eid results now db2 h with
      ⟨exam, orig, added, hfind, hc, hloop, hdb2⟩
    have hpub := updateFirst_find?
      (fun e => e.id == eid && e.teacherId == tid)
      (fun e => { e with isPublished := true }) (fun x => rfl) db.exams
    rw [hfind] at hpub
    refine ⟨{ exam with isPublished := true }, ?_, rfl⟩
    rw [hdb2]
    exact hpub
  · intro exam hfind hc
    cases hres : upsert_exam_results db tid eid [] now with
    | ok db3 => exact ⟨db3, rfl⟩
    | error e =>
      exfalso
      unfold upsert_exam_results at hres
      split at hres
      next heq => rw [hfind] at heq; cases heq
      next exam2 heq =>
        rw [hfind] at heq
        injection heq with heq2
        subst heq2
        split at hres
        next hbad => rw [hc] at hbad; cases hbad
        next =>
          split at hres
          next heq3 => rw [show resultsLoop db eid exam.courseId now db.examResults [] [] = .ok (db.examResults, []) from rfl] at heq3; cases heq3
          next orig added heq3 => cases hres

/-- Witness for C10 at a concrete database: an empty upload succeeds and
publishes the exam. -/
theorem claim_C10_publish_on_upload_witness :
    ∃ db3, upsert_exam_results
      ⟨[], [⟨1, 10⟩], [], [⟨5, 1, none, true⟩], [], [], [], [],
        [⟨2, 1, 10, false⟩], []⟩ 10 2 [] 100 = .ok db3
      ∧ ∃ ex, db3.exams.find? (fun e => e.id == 2 && e.teacherId == 10)
          = some ex ∧ ex.isPublished = true := by
  have hdb := claim_C10_publish_on_upload
    ⟨[], [⟨1, 10⟩], [], [⟨5, 1, none, true⟩], [], [], [], [],
      [⟨2, 1, 10, false⟩], []⟩ 10 2 100
  rcases hdb.2 ⟨2, 1, 10, false⟩ (by decide) (by decide) with ⟨db3, h3⟩
  exact ⟨db3, h3, hdb.1 [] db3 h3⟩

theorem pred_false_of_any_eq_false {α : Type} {p : α → Bool} {l : List α}
    (h : l.any p = false) : ∀ a ∈ l, p a = false := by
  intro a ha
  cases hp : p a with
  | false => rfl
  | true =>
    have htrue : l.any p = true := List.any_eq_true.mpr ⟨a, ha, hp⟩
    rw [h] at htrue
    cases htrue

theorem any_eq_true_of_mem {α : Type} {p : α → Bool} {l : List α} {a : α}
    (ha : a ∈ l) (hp : p a = true) : l.any p = true :=
  List.any_eq_true.mpr ⟨a, ha, hp⟩

/-- A success lemma for `upsert_exam_results`: when the three checks pass
the call commits the loop's output and publishes the exam. -/
theorem upsert_exam_results_eq_ok (db : AppDB) (tid eid : Nat)
    (results : List ExamResultPayload) (now : Nat) (exam : ExamRow)
    (orig added : List ExamResultRow)
    (hfind : db.exams.find? (fun e => e.id == eid && e.teacherId == tid) = some exam)
    (hc : (get_teacher_course_ids db tid).contains exam.courseId = true)
    (hloop : resultsLoop db eid exam.courseId now db.examResults [] results
      = .ok (orig, added)) :
    upsert_exam_results db tid eid results now = .ok { db with
      examResults := orig ++ added
      exams := updateFirst (fun e => e.id == eid && e.teacherId == tid)
        (fun e => { e with isPublished := true }) db.exams } := by
  unfold upsert_exam_results
  split
  next heq => rw [hfind] at heq; cases heq
  next exam2 heq =>
    rw [hfind] at heq
    injection heq with h2
    subst h2
    split
    next hbad => rw [hc] at hbad; cases hbad
    next =>
      split
      next e heq2 => rw [hloop] at heq2; cases heq2
      next orig2 added2 heq2 =>
        rw [hloop] at heq2
        simp only [Except.ok.injEq, Prod.mk.injEq] at heq2
        rw [← heq2.1, ← heq2.2]

/-- `resultsLoop` on a single payload with no committed row for the pair:
a fresh row is inserted. -/
theorem resultsLoop_insert (db : AppDB) (eid cid now : Nat)
    (orig added : List ExamResultRow) (p : ExamResultPayload)
    (henr : db.enrollments.any (fun e =>
      e.studentId == p.studentId && e.courseId == cid && e.isActive) = true)
    (horig : orig.any (fun r =>
      r.examId == eid && r.studentId == p.studentId) = false) :
    resultsLoop db eid cid now orig added [p]
      = .ok (orig, added ++ [⟨eid, p.studentId, p.score, p.maxScore,
          p.status, p.feedback, some (p.publishedAt.getD now)⟩]) := by
  unfold resultsLoop
  rw [henr, horig]
  rfl

/-- `resultsLoop` on a single payload with a committed row for the pair:
the first such row is updated in place. -/
theorem resultsLoop_update (db : AppDB) (eid cid now : Nat)
    (orig added : List ExamResultRow) (p : ExamResultPayload)
    (henr : db.enrollments.any (fun e =>
      e.studentId == p.studentId && e.courseId == cid && e.isActive) = true)
    (horig : orig.any (fun r =>
      r.examId == eid && r.studentId == p.studentId) = true) :
    resultsLoop db eid cid now orig added [p]
      = .ok (updateFirst (fun r => r.examId == eid && r.studentId == p.studentId)
          (fun r =>
            { r with
              score := p.score
              maxScore := p.maxScore
              status := p.status
              feedback := p.feedback
              publishedAt := some (p.publishedAt.getD now) }) orig,
        added) := by
  unfold resultsLoop
  rw [henr, horig]
  rfl

/-- C8: bulk exam-result upsert is keyed by (exam, student) — for a pair
with no committed row an upload inserts one row, and a second upload for
the same pair updates that row in place, so two uploads with scores
`s1` then `s2` leave exactly one row for the pair, carrying `s2`. -/
theorem claim_C8_result_upsert :
    ∀ (db : AppDB) (tid eid stu now1 now2 : Nat) (exam : ExamRow)
      (p1 p2 : ExamResultPayload),
      db.exams.find? (fun e => e.id == eid && e.teacherId == tid) = some exam →
      (get_teacher_course_ids db tid).contains exam.courseId = true →
      db.enrollments.any (fun e =>
        e.studentId == stu && e.courseId == exam.courseId && e.isActive) = true →
      resultCount db.examResults eid stu = 0 →
      p1.studentId = stu → p2.studentId = stu →
      ∃ db1 db2,
        upsert_exam_results db tid eid [p1] now1 = .ok db1
        ∧ resultCount db1.examResults eid stu = 1
        ∧ (∀ r ∈ db1.examResults, r.examId = eid → r.studentId = stu →
            r.score = p1.score)
        ∧ upsert_exam_results db1 tid eid [p2] now2 = .ok db2
        ∧ resultCount db2.examResults eid stu = 1
        ∧ (∀ r ∈ db2.examResults, r.examId = eid → r.studentId = stu →
            r.score = p2.score) := by
  intro db tid eid stu now1 now2 exam p1 p2 hfind hc henr hcount hp1 hp2
  have hpair : ∀ r : ExamResultRow,
      (r.examId == eid && r.studentId == stu) = true ↔
      (r.examId = eid ∧ r.studentId = stu) := by
    intro r
    simp
  have hfilter0 : db.examResults.filter
      (fun r => r.examId == eid && r.studentId == stu) = [] := by
    have := hcount
    unfold resultCount at this
    exact List.length_eq_zero.mp this
  have hnomatch : ∀ r ∈ db.examResults,
      (r.examId == eid && r.studentId == stu) = false := by
    intro r hr
    cases hp : (r.examId == eid && r.studentId == stu) with
    | false => rfl
    | true =>
      have hmem : r ∈ db.examResults.filter
          (fun r => r.examId == eid && r.studentId == stu) :=
        List.mem_filter.mpr ⟨hr, hp⟩
      rw [hfilter0] at hmem
      cases hmem
  have hany0 : db.examResults.any
      (fun r => r.examId == eid && r.studentId == p1.studentId) = false := by
    rw [hp1]
    cases hall : db.examResults.any
        (fun r => r.examId == eid && r.studentId == stu) with
    | false => rfl
    | true =>
      rcases List.any_eq_true.mp hall with ⟨r, hr, hp⟩
      rw [hnomatch r hr] at hp
      cases hp
  -- the row inserted by the first call
  have henr1 : db.enrollments.any (fun e =>
      e.studentId == p1.studentId && e.courseId == exam.courseId
        && e.isActive) = true := by rw [hp1]; exact henr
  have hloop1 := resultsLoop_insert db eid exam.courseId now1
    db.examResults [] p1 henr1 hany0
  have hcall1 := upsert_exam_results_eq_ok db tid eid [p1] now1 exam
    db.examResults
    ([] ++ [⟨eid, p1.studentId, p1.score, p1.maxScore, p1.status,
      p1.feedback, some (p1.publishedAt.getD now1)⟩]) hfind hc hloop1
  set row1 : ExamResultRow := ⟨eid, p1.studentId, p1.score, p1.maxScore,
    p1.status, p1.feedback, some (p1.publishedAt.getD now1)⟩ with hrow1
  set db1 : AppDB := { db with
    examResults := db.examResults ++ ([] ++ [row1])
    exams := updateFirst (fun e => e.id == eid && e.teacherId == tid)
      (fun e => { e with isPublished := true }) db.exams } with hdb1
  have hrow1pair : (row1.examId == eid && row1.studentId == stu) = true := by
    rw [hrow1]
    exact (hpair row1).mpr ⟨rfl, hp1⟩
  have hres1 : db1.examResults = db.examResults ++ [row1] := by
    rw [hdb1]
    rfl
  have hcount1 : resultCount db1.examResults eid stu = 1 := by
    rw [hres1]
    unfold resultCount
    rw [List.filter_append, hfilter0, List.nil_append]
    simp [List.filter, hrow1, hp1]
  have hscore1 : ∀ r ∈ db1.examResults, r.examId = eid → r.studentId = stu →
      r.score = p1.score := by
    intro r hr h1 h2
    rw [hres1] at hr
    rcases List.mem_append.mp hr with hr | hr
    · have hmm := (hpair r).mpr ⟨h1, h2⟩
      rw [hnomatch r hr] at hmm
      cases hmm
    · rcases List.mem_singleton.mp hr with rfl
      rfl
  -- second call: the pair now has exactly the row `row1`
  have hfind1 : db1.exams.find? (fun e => e.id == eid && e.teacherId == tid)
      = some { exam with isPublished := true } := by
    rw [hdb1]
    have := updateFirst_find? (fun e => e.id == eid && e.teacherId == tid)
      (fun e => { e with isPublished := true }) (fun x => rfl) db.exams
    rw [hfind] at this
    exact this
  have hc1 : (get_teacher_course_ids db1 tid).contains
      ({ exam with isPublished := true } : ExamRow).courseId = true := hc
  have henr2 : db1.enrollments.any (fun e =>
      e.studentId == p2.studentId
        && e.courseId == ({ exam with isPublished := true } : ExamRow).courseId
        && e.isActive) = true := by rw [hp2]; exact henr
  have hany1 : db1.examResults.any
      (fun r => r.examId == eid && r.studentId == p2.studentId) = true := by
    rw [hp2, hres1]
    exact any_eq_true_of_mem (List.mem_append_right _ (List.mem_singleton.mpr rfl))
      hrow1pair
  have hloop2 := resultsLoop_update db1 eid
    ({ exam with isPublished := true } : ExamRow).courseId now2
    db1.examResults [] p2 henr2 hany1
  have hcall2 := upsert_exam_results_eq_ok db1 tid eid [p2] now2
    { exam with isPublished := true } _ [] hfind1 hc1 hloop2
  set f2 : ExamResultRow → ExamResultRow := fun r =>
    { r with
      score := p2.score
      maxScore := p2.maxScore
      status := p2.status
      feedback := p2.feedback
      publishedAt := some (p2.publishedAt.getD now2) } with hf2
  have hupd : updateFirst
      (fun r => r.examId == eid && r.studentId == p2.studentId) f2
      db1.examResults = db.examResults ++ [f2 row1] := by
    rw [hres1, hp2]
    exact updateFirst_append_of_split _ f2 db.examResults [] row1
      hnomatch hrow1pair
  refine ⟨db1, _, hcall1, hcount1, hscore1, hcall2, ?_, ?_⟩
  · show resultCount (updateFirst
      (fun r => r.examId == eid && r.studentId == p2.studentId) f2
      db1.examResults ++ []) eid stu = 1
    rw [List.append_nil, hupd]
    unfold resultCount
    rw [List.filter_append, hfilter0, List.nil_append]
    simp [List.filter, hf2, hrow1, hp1]
  · show ∀ r ∈ (updateFirst
      (fun r => r.examId == eid && r.studentId == p2.studentId) f2
      db1.examResults ++ []), r.examId = eid → r.studentId = stu →
      r.score = p2.score
    rw [List.append_nil, hupd]
    intro r hr h1 h2
    rcases List.mem_append.mp hr with hr | hr
    · have := (hpair r).mpr ⟨h1, h2⟩
      rw [hnomatch r hr] at this
      cases this
    · rcases List.mem_singleton.mp hr with rfl
      rfl

/-- A concrete database for the C8 witness: teacher 10 owns course 1,
student 5 is actively enrolled, exam 2 belongs to course 1, no results. -/
def c8DB : AppDB :=
  ⟨[], [⟨1, 10⟩], [], [⟨5, 1, none, true⟩], [], [], [], [],
    [⟨2, 1, 10, false⟩], []⟩

/-- Witness for C8: two uploads for the pair (exam 2, student 5) with
scores 80 then 95 leave exactly one row, with score 95. -/
theorem claim_C8_result_upsert_witness :
    ∃ db1 db2,
      upsert_exam_results c8DB 10 2 [⟨5, 80, none, none, none, none⟩] 100
        = .ok db1
      ∧ resultCount db1.examResults 2 5 = 1
      ∧ (∀ r ∈ db1.examResults, r.examId = 2 → r.studentId = 5 →
          r.score = 80)
      ∧ upsert_exam_results db1 10 2 [⟨5, 95, none, none, none, none⟩] 200
        = .ok db2
      ∧ resultCount db2.examResults 2 5 = 1
      ∧ (∀ r ∈ db2.examResults, r.examId = 2 → r.studentId = 5 →
          r.score = 95) :=
  claim_C8_result_upsert c8DB 10 2 5 100 200 ⟨2, 1, 10, false⟩
    ⟨5, 80, none, none, none, none⟩ ⟨5, 95, none, none, none, none⟩
    (by decide) (by decide) (by decide) (by decide) rfl rfl

/-! ### Class/course mismatch on approval (C4) -/

/-- C4: approving a student with an assignment whose class exists but
belongs to a different course fails with 404 "Class does not belong to
the selected course", and the committed state is unchanged — no
enrollment row is created and the activation flag is not persisted. -/
theorem claim_C4_class_mismatch_404 :
    ∀ (db : AppDB) (uid cid clid : Nat) (childIds : List Nat)
      (activate : Bool) (user : UserRow) (course : CourseRow),
      db.users.find? (fun u => u.id == uid) = some user →
      user.role = "student" →
      (user.isActive && activate) = false →
      db.courses.find? (fun c => c.id == cid) = some course →
      (∃ cl ∈ db.classes, cl.id = clid) →
      (∀ cl ∈ db.classes, cl.id = clid → ¬ cl.courseId = cid) →
      approve_user db uid ⟨[⟨cid, some clid⟩], childIds, activate⟩
        = .error (.notFound ("Class does not belong to the selected course"))
      ∧ runOp db (.approve uid ⟨[⟨cid, some clid⟩], childIds, activate⟩)
        = db := by
  intro db uid cid clid childIds activate user course hfu hrole hguard hfc
    hclex hclbad
  have hcidEq : course.id = cid := by
    have := List.find?_some hfc
    simpa using this
  have hfcl : db.classes.find?
      (fun c => c.id == clid && c.courseId == course.id) = none := by
    apply List.find?_eq_none.mpr
    intro cl hcl hb
    simp only [Bool.and_eq_true, beq_iff_eq] at hb
    exact hclbad cl hcl hb.1 (hcidEq ▸ hb.2)
  have hcheck : checkClassBelongs db (some clid) course.id
      = .error (.notFound ("Class does not belong to the selected course")) := by
    simp [checkClassBelongs, hfcl]
  have hloop : approveAssignLoop db user.id db.enrollments [] [⟨cid, some clid⟩]
      = .error (.notFound ("Class does not belong to the selected course")) := by
    simp only [approveAssignLoop, hfc, hcheck]
  have hmain : approve_user db uid ⟨[⟨cid, some clid⟩], childIds, activate⟩
      = .error (.notFound ("Class does not belong to the selected course")) := by
    simp only [approve_user, approveEnrollPart, hfu, hguard,
      Bool.false_eq_true, if_false, hrole, beq_self_eq_true, if_true, hloop]
  refine ⟨hmain, ?_⟩
  simp only [runOp, hmain]

/-- Witness for C4: the spec scenario — student 5 approved with
course 1 / class 2 where class 2 belongs to course 3. -/
theorem claim_C4_class_mismatch_404_witness :
    approve_user
      ⟨[⟨5, "s@x", "h", "student", false⟩], [⟨1, 9⟩, ⟨3, 9⟩], [⟨2, 3⟩],
        [], [], [], [], [], [], []⟩ 5 ⟨[⟨1, some 2⟩], [], true⟩
      = .error (.notFound ("Class does not belong to the selected course"))
    ∧ runOp
      ⟨[⟨5, "s@x", "h", "student", false⟩], [⟨1, 9⟩, ⟨3, 9⟩], [⟨2, 3⟩],
        [], [], [], [], [], [], []⟩ (.approve 5 ⟨[⟨1, some 2⟩], [], true⟩)
      = ⟨[⟨5, "s@x", "h", "student", false⟩], [⟨1, 9⟩, ⟨3, 9⟩], [⟨2, 3⟩],
        [], [], [], [], [], [], []⟩ :=
  claim_C4_class_mismatch_404
    ⟨[⟨5, "s@x", "h", "student", false⟩], [⟨1, 9⟩, ⟨3, 9⟩], [⟨2, 3⟩],
      [], [], [], [], [], [], []⟩ 5 1 2 [] true
    ⟨5, "s@x", "h", "student", false⟩ ⟨1, 9⟩
    (by decide) rfl rfl (by decide) ⟨⟨2, 3⟩, by decide, rfl⟩
    (by decide)

/-! ### Teacher reassignment error handling (C5) -/

theorem ensure_teacher_exists_ok (db : AppDB) (tid : Nat) (t : UserRow)
    (hf : db.users.find? (fun u => u.id == tid) = some t)
    (hr : t.role = "teacher") :
    ensure_teacher_exists db tid = .ok t := by
  simp [ensure_teacher_exists, hf, hr]

theorem ensure_teacher_exists_error (db : AppDB) (tid : Nat)
    (h : ∀ u ∈ db.users, u.id = tid → ¬ u.role = "teacher") :
    ensure_teacher_exists db tid = .error (.notFound ("Teacher not found")) := by
  unfold ensure_teacher_exists
  cases hf : db.users.find? (fun u => u.id == tid) with
  | none => rfl
  | some u =>
    have hmem := List.mem_of_find?_eq_some hf
    have hid : u.id = tid := by simpa using List.find?_some hf
    have hrole : (u.role == "teacher") = false :=
      beq_eq_false_iff_ne.mpr (h u hmem hid)
    simp [hrole]

/-- The database of the C5 counterexample: user 1 is an INACTIVE teacher,
user 2 an active teacher, nothing owned by either. -/
def c5DB : AppDB :=
  ⟨[⟨1, "t1@x", "h", "teacher", false⟩, ⟨2, "t2@x", "h", "teacher", true⟩],
    [], [], [], [], [], [], [], [], []⟩

/-- Counterexample to C5 as stated: teacher id 1 does not refer to an
active teacher (its `is_active` flag is false), so per the claim the call
should fail with NotFound — but the code never checks the original
teacher's activation flag and the call succeeds, deleting the row. -/
theorem claim_C5_counterexample :
    c5DB.users.find? (fun u => u.id == 1)
      = some ⟨1, "t1@x", "h", "teacher", false⟩
    ∧ (⟨1, "t1@x", "h", "teacher", false⟩ : UserRow).isActive = false
    ∧ reassign_teacher_and_delete c5DB 1 2
      = .ok ⟨[⟨2, "t2@x", "h", "teacher", true⟩],
          [], [], [], [], [], [], [], [], []⟩ :=
  ⟨rfl, rfl, rfl⟩

/-- C5 amended: the equal-id check fires (with 400) only after the first
id resolves to a user with role teacher; a missing or non-teacher id —
active or not — yields 404; an id resolving to an INACTIVE teacher passes
the lookup, and an inactive replacement is rejected with 400 (not 404);
the original teacher's activation flag is never checked.  All these
failures occur before any mutation, so nothing is repointed or deleted. -/
theorem claim_C5_amended :
    ∀ (db : AppDB) (tid rid : Nat),
      ((∀ u ∈ db.users, u.id = tid → ¬ u.role = "teacher") →
        reassign_teacher_and_delete db tid rid
          = .error (.notFound ("Teacher not found")))
      ∧ (∀ t, db.users.find? (fun u => u.id == tid) = some t →
        t.role = "teacher" → tid = rid →
        reassign_teacher_and_delete db tid rid
          = .error (.badRequest ("Replacement teacher must be different")))
      ∧ (∀ t, db.users.find? (fun u => u.id == tid) = some t →
        t.role = "teacher" → ¬ tid = rid →
        (∀ u ∈ db.users, u.id = rid → ¬ u.role = "teacher") →
        reassign_teacher_and_delete db tid rid
          = .error (.notFound ("Teacher not found")))
      ∧ (∀ t r, db.users.find? (fun u => u.id == tid) = some t →
        t.role = "teacher" → ¬ tid = rid →
        db.users.find? (fun u => u.id == rid) = some r →
        r.role = "teacher" → r.isActive = false →
        reassign_teacher_and_delete db tid rid
          = .error (.badRequest ("Replacement teacher must be active"))) := by
  intro db tid rid
  refine ⟨?_, ?_, ?_, ?_⟩
  · intro h
    simp [reassign_teacher_and_delete, ensure_teacher_exists_error db tid h]
  · intro t hf hr heq
    subst heq
    simp [reassign_teacher_and_delete, ensure_teacher_exists_ok db tid t hf hr]
  · intro t hf hr hne h2
    have hb : (tid == rid) = false := beq_eq_false_iff_ne.mpr hne
    simp [reassign_teacher_and_delete, ensure_teacher_exists_ok db tid t hf hr,
      hb, ensure_teacher_exists_error db rid h2]
  · intro t r hf hr hne hf2 hr2 hact
    have hb : (tid == rid) = false := beq_eq_false_iff_ne.mpr hne
    simp [reassign_teacher_and_delete, ensure_teacher_exists_ok db tid t hf hr,
      hb, ensure_teacher_exists_ok db rid r hf2 hr2, hact]

/-- Witness for C5 amended: all four failure modes at concrete inputs. -/
theorem claim_C5_amended_witness :
    reassign_teacher_and_delete c5DB 7 2
      = .error (.notFound ("Teacher not found"))
    ∧ reassign_teacher_and_delete c5DB 1 1
      = .error (.badRequest ("Replacement teacher must be different"))
    ∧ reassign_teacher_and_delete c5DB 2 7
      = .error (.notFound ("Teacher not found"))
    ∧ reassign_teacher_and_delete c5DB 2 1
      = .error (.badRequest ("Replacement teacher must be active")) :=
  ⟨(claim_C5_amended c5DB 7 2).1 (by decide),
    (claim_C5_amended c5DB 1 1).2.1 ⟨1, "t1@x", "h", "teacher", false⟩
      (by decide) rfl rfl,
    (claim_C5_amended c5DB 2 7).2.2.1 ⟨2, "t2@x", "h", "teacher", true⟩
      (by decide) rfl (by decide) (by decide),
    (claim_C5_amended c5DB 2 1).2.2.2 ⟨2, "t2@x", "h", "teacher", true⟩
      ⟨1, "t1@x", "h", "teacher", false⟩
      (by decide) rfl (by decide) (by decide) rfl rfl⟩

/-! ### Parent-link idempotence (C9) -/

theorem linkCount_append (l₁ l₂ : List ParentStudentRow) (pid c : Nat) :
    linkCount (l₁ ++ l₂) pid c = linkCount l₁ pid c + linkCount l₂ pid c := by
  unfold linkCount
  rw [List.filter_append, List.length_append]

theorem linkCount_pos_of_any (l : List ParentStudentRow) (pid c : Nat)
    (h : l.any (fun x => x.parentId == pid && x.studentId == c) = true) :
    0 < linkCount l pid c := by
  rcases List.any_eq_true.mp h with ⟨x, hx, hpx⟩
  unfold linkCount
  have hmem : x ∈ l.filter (fun x => x.parentId == pid && x.studentId == c) :=
    List.mem_filter.mpr ⟨hx, hpx⟩
  exact List.length_pos.mpr (List.ne_nil_of_mem hmem)

theorem linkCount_eq_zero_of_any_false (l : List ParentStudentRow)
    (pid c : Nat)
    (h : l.any (fun x => x.parentId == pid && x.studentId == c) = false) :
    linkCount l pid c = 0 := by
  unfold linkCount
  rw [List.length_eq_zero]
  exact List.filter_eq_nil_iff.mpr (fun x hx => by
    rw [pred_false_of_any_eq_false h x hx]
    exact Bool.false_ne_true)

theorem linkCount_le_one_of_nodup (l : List ParentStudentRow) (pid c : Nat)
    (h : (l.map (fun x => (x.parentId, x.studentId))).Nodup) :
    linkCount l pid c ≤ 1 := by
  induction l with
  | nil => simp [linkCount]
  | cons x xs ih =>
    rw [List.map_cons, List.nodup_cons] at h
    unfold linkCount
    rw [List.filter_cons]
    cases hp : (x.parentId == pid && x.studentId == c) with
    | false =>
      simp only [Bool.false_eq_true, if_false]
      exact ih h.2
    | true =>
      simp only [if_true, List.length_cons]
      have hx : x.parentId = pid ∧ x.studentId = c := by
        simpa using hp
      have hzero : linkCount xs pid c = 0 := by
        cases hany : xs.any (fun y => y.parentId == pid && y.studentId == c) with
        | false => exact linkCount_eq_zero_of_any_false xs pid c hany
        | true =>
          exfalso
          rcases List.any_eq_true.mp hany with ⟨y, hy, hpy⟩
          have hyx : (y.parentId, y.studentId) = (pid, c) := by
            simpa using hpy
          exact h.1 (List.mem_map.mpr ⟨y, hy,
            by rw [hyx, ← hx.1, ← hx.2]⟩)
      unfold linkCount at hzero
      rw [hzero]

/-- Rows appended by `approveChildLoop` only concern the processed child
ids: counts for any other (parent, student) pair are untouched. -/
theorem approveChildLoop_count_not_mem (db : AppDB) (pid : Nat)
    (cs : List Nat) (added out : List ParentStudentRow)
    (h : approveChildLoop db pid added cs = .ok out) :
    ∀ c, ¬ c ∈ cs → linkCount out pid c = linkCount added pid c := by
  induction cs generalizing added with
  | nil =>
    intro c _
    unfold approveChildLoop at h
    simp only [Except.ok.injEq] at h
    rw [h]
  | cons c0 rest ih =>
    intro c hc
    simp only [List.mem_cons, not_or] at hc
    unfold approveChildLoop at h
    split at h
    · cases h
    next child hfu =>
      have hcid : child.id = c0 := by
        have := List.find?_some hfu
        simp only [Bool.and_eq_true, beq_iff_eq] at this
        exact this.1
      split at h
      next hg => exact ih added h c hc.2
      next hg =>
        rw [ih (added ++ [⟨pid, child.id⟩]) h c hc.2, linkCount_append]
        have hz : linkCount [(⟨pid, child.id⟩ : ParentStudentRow)] pid c = 0 := by
          unfold linkCount
          have hne : (child.id == c) = false :=
            beq_eq_false_iff_ne.mpr (fun he => hc.1 (by rw [← hcid, he]))
          simp [List.filter, hne]
        rw [hz, Nat.add_zero]

/-- Per-child effect of a successful `approveChildLoop` run on a
duplicate-free id list: a child with a committed link gains nothing, a
child without one gains exactly one pending link. -/
theorem approveChildLoop_count (db : AppDB) (pid : Nat) (cs : List Nat)
    (added out : List ParentStudentRow) (hnd : cs.Nodup)
    (h : approveChildLoop db pid added cs = .ok out) :
    ∀ c ∈ cs, linkCount out pid c = linkCount added pid c
      + (if db.parentLinks.any
          (fun l => l.parentId == pid && l.studentId == c) = true
        then 0 else 1) := by
  induction cs generalizing added with
  | nil => intro c hc; cases hc
  | cons c0 rest ih =>
    intro c hcmem
    rw [List.nodup_cons] at hnd
    unfold approveChildLoop at h
    split at h
    · cases h
    next child hfu =>
      have hcid : child.id = c0 := by
        have := List.find?_some hfu
        simp only [Bool.and_eq_true, beq_iff_eq] at this
        exact this.1
      rcases List.mem_cons.mp hcmem with rfl | hcr
      · -- the head child id itself
        split at h
        next hg =>
          rw [hcid] at hg
          rw [approveChildLoop_count_not_mem db pid rest added out h c hnd.1]
          simp [hg]
        next hg =>
          rw [hcid] at hg
          have hg2 : db.parentLinks.any
              (fun l => l.parentId == pid && l.studentId == c) = false := by
            cases hb : db.parentLinks.any
                (fun l => l.parentId == pid && l.studentId == c) with
            | false => rfl
            | true => exact absurd hb hg
          rw [approveChildLoop_count_not_mem db pid rest
            (added ++ [⟨pid, child.id⟩]) out h c hnd.1, linkCount_append]
          have hone : linkCount [(⟨pid, child.id⟩ : ParentStudentRow)] pid c
              = 1 := by
            unfold linkCount
            simp [List.filter, hcid]
          rw [hone, hg2]
          simp
      · -- a child id further down the list
        have hc0 : ¬ c = c0 := fun he => hnd.1 (he ▸ hcr)
        split at h
        next hg => exact ih added hnd.2 h c hcr
        next hg =>
          rw [ih (added ++ [⟨pid, child.id⟩]) hnd.2 h c hcr, linkCount_append]
          have hz : linkCount [(⟨pid, child.id⟩ : ParentStudentRow)] pid c
              = 0 := by
            unfold linkCount
            have hne : (child.id == c) = false :=
              beq_eq_false_iff_ne.mpr (fun he => hc0 (by rw [← hcid, he]))
            simp [List.filter, hne]
          rw [hz, Nat.add_zero]

/-- A successful `approveChildLoop` run found every child id as a student
user. -/
theorem approveChildLoop_ok_found (db : AppDB) (pid : Nat) (cs : List Nat)
    (added out : List ParentStudentRow)
    (h : approveChildLoop db pid added cs = .ok out) :
    ∀ c ∈ cs, ∃ u, db.users.find?
      (fun u => u.id == c && u.role == "student") = some u := by
  induction cs generalizing added with
  | nil => intro c hc; cases hc
  | cons c0 rest ih =>
    intro c hcmem
    unfold approveChildLoop at h
    split at h
    · cases h
    next child hfu =>
      rcases List.mem_cons.mp hcmem with rfl | hcr
      · exact ⟨child, hfu⟩
      · split at h
        next => exact ih added h c hcr
        next => exact ih (added ++ [⟨pid, child.id⟩]) h c hcr

/-- Inversion of a successful `approve_user` call on a parent user: the
child loop succeeded, the commit passed the `uq_parent_student` check,
and the state gains exactly the pending links. -/
theorem approve_user_parent_ok (db : AppDB) (uid : Nat) (pay : ApprovePayload)
    (user : UserRow) (db1 : AppDB)
    (hfu : db.users.find? (fun u => u.id == uid) = some user)
    (hrole : user.role = "parent")
    (h : approve_user db uid pay = .ok db1) :
    ∃ addedLinks,
      approveChildLoop db user.id [] pay.childIds = .ok addedLinks
      ∧ parentInsertOk db.parentLinks addedLinks = true
      ∧ db1.parentLinks = db.parentLinks ++ addedLinks
      ∧ db1.users = setUserActive db.users uid pay.activate
      ∧ db1.enrollments = db.enrollments := by
  have hrs : (user.role == "student") = false := by rw [hrole]; rfl
  have hrp : (user.role == "parent") = true := by rw [hrole]; rfl
  have henr : approveEnrollPart db user pay = .ok (db.enrollments, []) := by
    simp [approveEnrollPart, hrs]
  have hlinkdef : approveLinkPart db user pay
      = approveChildLoop db user.id [] pay.childIds := by
    simp [approveLinkPart, hrp]
  unfold approve_user at h
  split at h
  · cases h
  next user2 hfu2 =>
    rw [hfu] at hfu2
    injection hfu2 with he
    subst he
    split at h
    · cases h
    next hguard =>
      split at h
      · cases h
      next orig addedEnr heq =>
        rw [henr] at heq
        simp only [Except.ok.injEq, Prod.mk.injEq] at heq
        split at h
        · cases h
        next addedLinks hleq =>
          rw [hlinkdef] at hleq
          split at h
          next hok =>
            simp only [Except.ok.injEq] at h
            subst h
            refine ⟨addedLinks, hleq, hok, rfl, rfl, ?_⟩
            show orig ++ addedEnr = db.enrollments
            rw [← heq.1, ← heq.2, List.append_nil]
          next hok => cases h

theorem find?_map_pred {α : Type} (g : α → α) (p : α → Bool)
    (hp : ∀ x, p (g x) = p x) (l : List α) :
    (l.map g).find? p = (l.find? p).map g := by
  induction l with
  | nil => rfl
  | cons x xs ih =>
    rw [List.map_cons, List.find?_cons, List.find?_cons, hp]
    cases hx : p x with
    | true => simp
    | false => simpa using ih

/-- The database of the C9 counterexample: a pending parent (id 1) and a
valid student (id 7), no links yet. -/
def c9DB : AppDB :=
  ⟨[⟨1, "p@x", "h", "parent", false⟩, ⟨7, "c@x", "h", "student", true⟩],
    [], [], [], [], [], [], [], [], []⟩

/-- Counterexample to C9 as stated: with the duplicated (but valid)
child-id list `[7, 7]` the two pending inserts collide on the
`uq_parent_student` unique constraint at commit time, the call fails and
is rolled back, and after calling `approve_user` twice the pair
(parent 1, student 7) has zero `ParentStudent` rows — not exactly one
per child as the claim requires for every list of valid student ids. -/
theorem claim_C9_counterexample :
    approve_user c9DB 1 ⟨[], [7, 7], true⟩ = .error .integrityError
    ∧ runOps c9DB [.approve 1 ⟨[], [7, 7], true⟩,
        .approve 1 ⟨[], [7, 7], true⟩] = c9DB
    ∧ linkCount c9DB.parentLinks 1 7 = 0 :=
  ⟨rfl, rfl, rfl⟩

theorem any_of_linkCount_pos (l : List ParentStudentRow) (pid c : Nat)
    (h : 0 < linkCount l pid c) :
    l.any (fun x => x.parentId == pid && x.studentId == c) = true := by
  unfold linkCount at h
  rcases List.exists_mem_of_length_pos h with ⟨x, hx⟩
  rcases List.mem_filter.mp hx with ⟨hmem, hpx⟩
  exact any_eq_true_of_mem hmem hpx

/-- C9 amended: for duplicate-free child-id lists the claim holds — after
a successful `approve_user` on a parent there is exactly one
`ParentStudent` row per child (a link is created only when none exists),
and a second call with the same child ids, whether it succeeds or fails,
leaves exactly one row per child.  A duplicated child id inside one call
instead aborts the whole call on the `uq_parent_student` constraint. -/
theorem claim_C9_amended :
    ∀ (db db1 : AppDB) (pid : Nat) (user : UserRow) (pay : ApprovePayload),
      (db.parentLinks.map (fun l => (l.parentId, l.studentId))).Nodup →
      db.users.find? (fun u => u.id == pid) = some user →
      user.role = "parent" →
      pay.childIds.Nodup →
      approve_user db pid pay = .ok db1 →
      (∀ c ∈ pay.childIds, linkCount db1.parentLinks pid c = 1)
      ∧ ∀ pay2 : ApprovePayload, pay2.childIds = pay.childIds →
          ∀ c ∈ pay.childIds,
            linkCount (runOp db1 (.approve pid pay2)).parentLinks pid c = 1 := by
  intro db db1 pid user pay hnodup hfu hrole hnd h
  have huid : user.id = pid := by simpa using List.find?_some hfu
  rcases approve_user_parent_ok db pid pay user db1 hfu hrole h with
    ⟨added, hloop, hok, hlinks, husers, henr⟩
  rw [huid] at hloop
  have hcount1 : ∀ c ∈ pay.childIds, linkCount db1.parentLinks pid c = 1 := by
    intro c hc
    have hstep := approveChildLoop_count db pid pay.childIds [] added hnd
      hloop c hc
    have hnil : linkCount [] pid c = 0 := rfl
    rw [hlinks, linkCount_append]
    cases hany : db.parentLinks.any
        (fun l => l.parentId == pid && l.studentId == c) with
    | true =>
      rw [hany, hnil] at hstep
      simp only [if_true] at hstep
      have hle := linkCount_le_one_of_nodup db.parentLinks pid c hnodup
      have hpos := linkCount_pos_of_any db.parentLinks pid c hany
      omega
    | false =>
      rw [hany, hnil] at hstep
      simp only [Bool.false_eq_true, if_false] at hstep
      have hzero := linkCount_eq_zero_of_any_false db.parentLinks pid c hany
      omega
  refine ⟨hcount1, ?_⟩
  intro pay2 hpc c hc
  cases hres : approve_user db1 pid pay2 with
  | error e =>
    simp only [runOp, hres]
    exact hcount1 c hc
  | ok db2 =>
    simp only [runOp, hres]
    have hu1 : db1.users.find? (fun u => u.id == pid)
        = some { user with isActive := pay.activate } := by
      rw [husers]
      unfold setUserActive
      rw [find?_map_pred _ _ (fun x => by
        cases hx : (x.id == pid) <;> simp [hx]) db.users, hfu]
      simp only [Option.map_some']
      rw [huid]
      simp
    have hrole1 : ({ user with isActive := pay.activate } : UserRow).role
        = "parent" := hrole
    rcases approve_user_parent_ok db1 pid pay2
      { user with isActive := pay.activate } db2 hu1 hrole1 hres with
      ⟨added2, hloop2, hok2, hlinks2, husers2, henr2⟩
    have hu1id : ({ user with isActive := pay.activate } : UserRow).id
        = pid := huid
    rw [hu1id, hpc] at hloop2
    have hstep2 := approveChildLoop_count db1 pid pay.childIds [] added2 hnd
      hloop2 c hc
    have hany1 : db1.parentLinks.any
        (fun l => l.parentId == pid && l.studentId == c) = true :=
      any_of_linkCount_pos db1.parentLinks pid c
        (by rw [hcount1 c hc]; exact Nat.zero_lt_one)
    have hnil : linkCount [] pid c = 0 := rfl
    rw [hany1, hnil] at hstep2
    simp only [if_true] at hstep2
    rw [hlinks2, linkCount_append, hcount1 c hc, hstep2]

/-- Pre-state of the C9 witness: pending parent 1, students 7 and 8. -/
def c9WDB : AppDB :=
  ⟨[⟨1, "p@x", "h", "parent", false⟩, ⟨7, "c7@x", "h", "student", true⟩,
      ⟨8, "c8@x", "h", "student", true⟩],
    [], [], [], [], [], [], [], [], []⟩

/-- Post-state of the C9 witness: parent activated, one link per child. -/
def c9WDB1 : AppDB :=
  ⟨[⟨1, "p@x", "h", "parent", true⟩, ⟨7, "c7@x", "h", "student", true⟩,
      ⟨8, "c8@x", "h", "student", true⟩],
    [], [], [], [⟨1, 7⟩, ⟨1, 8⟩], [], [], [], [], []⟩

/-- Witness for C9 amended: approving parent 1 with children [7, 8]
creates one link per child, and a repeat call with the same ids keeps
exactly one link per child. -/
theorem claim_C9_amended_witness :
    (∀ c ∈ ([7, 8] : List Nat), linkCount c9WDB1.parentLinks 1 c = 1)
    ∧ ∀ pay2 : ApprovePayload, pay2.childIds = [7, 8] →
        ∀ c ∈ ([7, 8] : List Nat),
          linkCount (runOp c9WDB1 (.approve 1 pay2)).parentLinks 1 c = 1 :=
  claim_C9_amended c9WDB c9WDB1 1 ⟨1, "p@x", "h", "parent", false⟩
    ⟨[], [7, 8], true⟩ (by decide) (by decide) rfl (by decide) rfl

/-! ### Enrollment invariant toolkit (C2, C3) -/

/-- The columns of an enrollment row that the admin queries match on:
`student_id`, `course_id`, `is_active`.  The approval and reconcile loops
never change these on committed rows (the update branches only touch
`class_id`, or re-assert `is_active = True` on an already-active row), so
row lists before and after a loop agree under this projection. -/
def skel (e : EnrollmentRow) : Nat × Nat × Bool :=
  (e.studentId, e.courseId, e.isActive)

theorem isActFor_factor (sid cid : Nat) (e : EnrollmentRow) :
    isActFor sid cid e
      = ((skel e).1 == sid && (skel e).2.1 == cid && (skel e).2.2) := rfl

theorem activeCount_congr_skel (l₁ l₂ : List EnrollmentRow)
    (h : l₁.map skel = l₂.map skel) (sid cid : Nat) :
    activeCount l₁ sid cid = activeCount l₂ sid cid := by
  unfold activeCount
  rw [← List.countP_eq_length_filter, ← List.countP_eq_length_filter]
  have hfac : ∀ l : List EnrollmentRow,
      l.countP (isActFor sid cid)
        = (l.map skel).countP
          (fun t => t.1 == sid && t.2.1 == cid && t.2.2) := by
    intro l
    rw [List.countP_map]
    rfl
  rw [hfac, hfac, h]

theorem rowCount_congr_skel (l₁ l₂ : List EnrollmentRow)
    (h : l₁.map skel = l₂.map skel) (sid cid : Nat) :
    rowCount l₁ sid cid = rowCount l₂ sid cid := by
  unfold rowCount
  rw [← List.countP_eq_length_filter, ← List.countP_eq_length_filter]
  have hfac : ∀ l : List EnrollmentRow,
      l.countP (fun e => e.studentId == sid && e.courseId == cid)
        = (l.map skel).countP (fun t => t.1 == sid && t.2.1 == cid) := by
    intro l
    rw [List.countP_map]
    rfl
  rw [hfac, hfac, h]

theorem any_map_general {α β : Type} (f : α → β) (p : β → Bool)
    (l : List α) : (l.map f).any p = l.any (fun x => p (f x)) := by
  induction l with
  | nil => rfl
  | cons x xs ih => simp [List.any_cons, ih]

theorem any_congr_skel (l₁ l₂ : List EnrollmentRow)
    (h : l₁.map skel = l₂.map skel) (sid cid : Nat) :
    l₁.any (isActFor sid cid) = l₂.any (isActFor sid cid) := by
  have hfac : ∀ l : List EnrollmentRow,
      l.any (isActFor sid cid)
        = (l.map skel).any
          (fun t => t.1 == sid && t.2.1 == cid && t.2.2) := by
    intro l
    rw [any_map_general]
    rfl
  rw [hfac, hfac, h]

theorem activeCount_append (l₁ l₂ : List EnrollmentRow) (sid cid : Nat) :
    activeCount (l₁ ++ l₂) sid cid
      = activeCount l₁ sid cid + activeCount l₂ sid cid := by
  unfold activeCount
  rw [List.filter_append, List.length_append]

theorem rowCount_append (l₁ l₂ : List EnrollmentRow) (sid cid : Nat) :
    rowCount (l₁ ++ l₂) sid cid
      = rowCount l₁ sid cid + rowCount l₂ sid cid := by
  unfold rowCount
  rw [List.filter_append, List.length_append]

theorem activeCount_eq_zero_of_any_false (l : List EnrollmentRow)
    (sid cid : Nat) (h : l.any (isActFor sid cid) = false) :
    activeCount l sid cid = 0 := by
  unfold activeCount
  rw [List.length_eq_zero]
  exact List.filter_eq_nil_iff.mpr (fun x hx => by
    rw [pred_false_of_any_eq_false h x hx]
    exact Bool.false_ne_true)

/-- The approval assignment loop never changes the matching columns of
committed rows: it only rewrites `class_id` on rows found active. -/
theorem approveAssignLoop_map_skel (db : AppDB) (sid : Nat)
    (as : List CourseAssignment) (orig added orig2 added2 : List EnrollmentRow)
    (h : approveAssignLoop db sid orig added as = .ok (orig2, added2)) :
    orig2.map skel = orig.map skel := by
  induction as generalizing orig added with
  | nil =>
    unfold approveAssignLoop at h
    simp only [Except.ok.injEq, Prod.mk.injEq] at h
    rw [h.1]
  | cons a rest ih =>
    unfold approveAssignLoop at h
    split at h
    · cases h
    next course hfc =>
      split at h
      · cases h
      next =>
        split at h
        next hany =>
          rw [ih _ _ h]
          cases a.classId with
          | some cl =>
            exact updateFirst_map (isActFor sid course.id)
              (fun e => { e with classId := some cl }) skel
              (fun x _ => rfl) orig
          | none => rfl
        next hany => exact ih _ _ h

/-- Invariant preservation by the approval assignment loop on a
duplicate-free assignment list: at most one active row per
(student, course) pair, provided the pending rows in `added` never
concern a course that is still to be processed. -/
theorem approveAssignLoop_inv (db : AppDB) (sid : Nat)
    (as : List CourseAssignment)
    (orig added orig2 added2 : List EnrollmentRow)
    (hnd : (as.map (fun a => a.courseId)).Nodup)
    (hadded : ∀ e ∈ added, e.studentId = sid →
      ¬ e.courseId ∈ as.map (fun a => a.courseId))
    (h : approveAssignLoop db sid orig added as = .ok (orig2, added2))
    (hInv : ∀ s c, activeCount (orig ++ added) s c ≤ 1) :
    ∀ s c, activeCount (orig2 ++ added2) s c ≤ 1 := by
  induction as generalizing orig added with
  | nil =>
    unfold approveAssignLoop at h
    simp only [Except.ok.injEq, Prod.mk.injEq] at h
    rw [← h.1, ← h.2]
    exact hInv
  | cons a rest ih =>
    rw [List.map_cons, List.nodup_cons] at hnd
    unfold approveAssignLoop at h
    split at h
    · cases h
    next course hfc =>
      have hcourse : course.id = a.courseId := by
        simpa using List.find?_some hfc
      split at h
      · cases h
      next =>
        split at h
        next hany =>
          have hskel : (match a.classId with
              | some _ =>
                updateFirst (isActFor sid course.id)
                  (fun e => { e with classId := a.classId }) orig
              | none => orig).map skel = orig.map skel := by
            cases a.classId with
            | some cl =>
              exact updateFirst_map (isActFor sid course.id)
                (fun e => { e with classId := some cl }) skel
                (fun x _ => rfl) orig
            | none => rfl
          refine ih _ _ hnd.2
            (fun e he hs hmem => hadded e he hs (List.mem_cons_of_mem _ hmem))
            h ?_
          intro s c
          rw [activeCount_append,
            activeCount_congr_skel _ _ hskel s c, ← activeCount_append]
          exact hInv s c
        next hany =>
          have hany0 : orig.any (isActFor sid course.id) = false := by
            cases hb : orig.any (isActFor sid course.id) with
            | true => exact absurd hb hany
            | false => rfl
          refine ih _ _ hnd.2 ?_ h ?_
          · intro e he hs
            rcases List.mem_append.mp he with he | he
            · exact fun hmem => hadded e he hs
                (List.mem_cons_of_mem _ hmem)
            · rcases List.mem_singleton.mp he with rfl
              intro hmem
              rw [hcourse] at hmem
              exact hnd.1 hmem
          · intro s c
            rw [activeCount_append, activeCount_append]
            by_cases hsc : s = sid ∧ c = course.id
            · have h1 : activeCount orig s c = 0 := by
                rw [hsc.1, hsc.2]
                exact activeCount_eq_zero_of_any_false orig sid course.id hany0
              have h2 : activeCount added s c = 0 := by
                rw [hsc.1, hsc.2]
                apply activeCount_eq_zero_of_any_false
                cases hb : added.any (isActFor sid course.id) with
                | false => rfl
                | true =>
                  exfalso
                  rcases List.any_eq_true.mp hb with ⟨e, he, hpe⟩
                  simp only [isActFor, Bool.and_eq_true, beq_iff_eq] at hpe
                  apply hadded e he hpe.1.1
                  rw [hpe.1.2, hcourse]
                  exact List.mem_cons_self _ _
              have h3 : activeCount
                  [(⟨sid, course.id, a.classId, true⟩ : EnrollmentRow)] s c
                  = 1 := by
                rw [hsc.1, hsc.2]
                unfold activeCount
                simp [List.filter, isActFor]
              rw [h1, h2, h3]
            · have h3 : activeCount [⟨sid, course.id, a.classId, true⟩] s c
                  = 0 := by
                unfold activeCount
                have hpf : isActFor s c
                    (⟨sid, course.id, a.classId, true⟩ : EnrollmentRow)
                    = false := by
                  simp only [isActFor]
                  rcases not_and_or.mp hsc with hs | hc
                  · simp [beq_eq_false_iff_ne.mpr (fun he => hs he.symm)]
                  · simp [beq_eq_false_iff_ne.mpr (fun he => hc he.symm)]
                simp [List.filter, hpf]
              rw [h3, Nat.add_zero]
              have := hInv s c
              rw [activeCount_append] at this
              exact this

/-- When the student already has an active enrollment for a course, the
approval loop never adds a row for that (student, course) pair: the total
number of its rows is unchanged (the existing row is updated in place). -/
theorem approveAssignLoop_rowCount (db : AppDB) (sid : Nat)
    (as : List CourseAssignment)
    (orig added orig2 added2 : List EnrollmentRow) (c : Nat)
    (hc : orig.any (isActFor sid c) = true)
    (h : approveAssignLoop db sid orig added as = .ok (orig2, added2)) :
    rowCount (orig2 ++ added2) sid c = rowCount (orig ++ added) sid c := by
  induction as generalizing orig added with
  | nil =>
    unfold approveAssignLoop at h
    simp only [Except.ok.injEq, Prod.mk.injEq] at h
    rw [← h.1, ← h.2]
  | cons a rest ih =>
    unfold approveAssignLoop at h
    split at h
    · cases h
    next course hfc =>
      split at h
      · cases h
      next =>
        split at h
        next hany =>
          have hskel : (match a.classId with
              | some _ =>
                updateFirst (isActFor sid course.id)
                  (fun e => { e with classId := a.classId }) orig
              | none => orig).map skel = orig.map skel := by
            cases a.classId with
            | some cl =>
              exact updateFirst_map (isActFor sid course.id)
                (fun e => { e with classId := some cl }) skel
                (fun x _ => rfl) orig
            | none => rfl
          have hc2 : (match a.classId with
              | some _ =>
                updateFirst (isActFor sid course.id)
                  (fun e => { e with classId := a.classId }) orig
              | none => orig).any (isActFor sid c) = true := by
            rw [any_congr_skel _ _ hskel]
            exact hc
          rw [ih _ _ hc2 h, rowCount_append, rowCount_append,
            rowCount_congr_skel _ _ hskel]
        next hany =>
          have hany0 : orig.any (isActFor sid course.id) = false := by
            cases hb : orig.any (isActFor sid course.id) with
            | true => exact absurd hb hany
            | false => rfl
          have hne : ¬ c = course.id := by
            intro he
            rw [he] at hc
            rw [hany0] at hc
            cases hc
          have hz : rowCount
              [(⟨sid, course.id, a.classId, true⟩ : EnrollmentRow)] sid c
              = 0 := by
            unfold rowCount
            have hb : (course.id == c) = false :=
              beq_eq_false_iff_ne.mpr (fun he => hne he.symm)
            simp [List.filter, hb]
          rw [ih _ _ hc h, rowCount_append, rowCount_append,
            rowCount_append, hz, Nat.add_zero]

/-- The reconcile update branch re-asserts `is_active = True` on a row
that is already active, so the matching columns are unchanged. -/
theorem reconcile_update_skel (sid c : Nat) (cl : Option Nat) :
    ∀ x : EnrollmentRow, isActFor sid c x = true →
      skel { x with isActive := true, classId := cl } = skel x := by
  intro x hx
  simp only [isActFor, Bool.and_eq_true] at hx
  unfold skel
  rw [hx.2]

/-- The reconcile loop never changes the matching columns of committed
rows. -/
theorem reconcileLoop_map_skel (db : AppDB) (sid : Nat) (domain : List Nat)
    (as : List CourseAssignment)
    (orig added orig2 added2 : List EnrollmentRow)
    (h : reconcileLoop db sid domain orig added as = .ok (orig2, added2)) :
    orig2.map skel = orig.map skel := by
  induction as generalizing orig added with
  | nil =>
    unfold reconcileLoop at h
    simp only [Except.ok.injEq, Prod.mk.injEq] at h
    rw [h.1]
  | cons a rest ih =>
    unfold reconcileLoop at h
    split at h
    · cases h
    next course hfc =>
      split at h
      · cases h
      next =>
        split at h
        next hcont =>
          rw [ih _ _ h]
          exact updateLast_map (isActFor sid course.id)
            (fun e => { e with isActive := true, classId := a.classId }) skel
            (reconcile_update_skel sid course.id a.classId) orig
        next hcont => exact ih _ _ h

/-- Pending rows are only ever appended by the reconcile loop. -/
theorem reconcileLoop_added_suffix (db : AppDB) (sid : Nat)
    (domain : List Nat) (as : List CourseAssignment)
    (orig added orig2 added2 : List EnrollmentRow)
    (h : reconcileLoop db sid domain orig added as = .ok (orig2, added2)) :
    ∃ extra, added2 = added ++ extra := by
  induction as generalizing orig added with
  | nil =>
    unfold reconcileLoop at h
    simp only [Except.ok.injEq, Prod.mk.injEq] at h
    exact ⟨[], by rw [← h.2, List.append_nil]⟩
  | cons a rest ih =>
    unfold reconcileLoop at h
    split at h
    · cases h
    next course hfc =>
      split at h
      · cases h
      next =>
        split at h
        next hcont => exact ih _ _ h
        next hcont =>
          rcases ih _ _ h with ⟨extra, hx⟩
          exact ⟨[⟨sid, course.id, a.classId, true⟩] ++ extra,
            by rw [hx, List.append_assoc]⟩

/-- Invariant preservation by the reconcile loop on a duplicate-free
assignment list.  `domain` over-approximates the set of courses with an
active row in `orig` (the contrapositive hypothesis `hdom`): the insert
branch therefore only fires for pairs with no active row. -/
theorem reconcileLoop_inv (db : AppDB) (sid : Nat) (domain : List Nat)
    (as : List CourseAssignment)
    (orig added orig2 added2 : List EnrollmentRow)
    (hnd : (as.map (fun a => a.courseId)).Nodup)
    (hadded : ∀ e ∈ added, e.studentId = sid →
      ¬ e.courseId ∈ as.map (fun a => a.courseId))
    (hdom : ∀ c, ¬ c ∈ domain → orig.any (isActFor sid c) = false)
    (h : reconcileLoop db sid domain orig added as = .ok (orig2, added2))
    (hInv : ∀ s c, activeCount (orig ++ added) s c ≤ 1) :
    ∀ s c, activeCount (orig2 ++ added2) s c ≤ 1 := by
  induction as generalizing orig added with
  | nil =>
    unfold reconcileLoop at h
    simp only [Except.ok.injEq, Prod.mk.injEq] at h
    rw [← h.1, ← h.2]
    exact hInv
  | cons a rest ih =>
    rw [List.map_cons, List.nodup_cons] at hnd
    unfold reconcileLoop at h
    split at h
    · cases h
    next course hfc =>
      have hcourse : course.id = a.courseId := by
        simpa using List.find?_some hfc
      split at h
      · cases h
      next =>
        split at h
        next hcont =>
          have hskel : (updateLast (isActFor sid course.id)
              (fun e => { e with isActive := true, classId := a.classId })
              orig).map skel = orig.map skel :=
            updateLast_map (isActFor sid course.id)
              (fun e => { e with isActive := true, classId := a.classId })
              skel (reconcile_update_skel sid course.id a.classId) orig
          refine ih _ _ hnd.2
            (fun e he hs hmem => hadded e he hs (List.mem_cons_of_mem _ hmem))
            (fun c hc => by
              rw [any_congr_skel _ _ hskel]
              exact hdom c hc)
            h ?_
          intro s c
          rw [activeCount_append, activeCount_congr_skel _ _ hskel s c,
            ← activeCount_append]
          exact hInv s c
        next hcont =>
          have hnomem : ¬ course.id ∈ domain := fun hmem =>
            hcont (List.elem_iff.mpr hmem)
          have hany0 : orig.any (isActFor sid course.id) = false :=
            hdom course.id hnomem
          refine ih _ _ hnd.2 ?_ hdom h ?_
          · intro e he hs
            rcases List.mem_append.mp he with he | he
            · exact fun hmem => hadded e he hs
                (List.mem_cons_of_mem _ hmem)
            · rcases List.mem_singleton.mp he with rfl
              intro hmem
              rw [hcourse] at hmem
              exact hnd.1 hmem
          · intro s c
            rw [activeCount_append, activeCount_append]
            by_cases hsc : s = sid ∧ c = course.id
            · have h1 : activeCount orig s c = 0 := by
                rw [hsc.1, hsc.2]
                exact activeCount_eq_zero_of_any_false orig sid course.id hany0
              have h2 : activeCount added s c = 0 := by
                rw [hsc.1, hsc.2]
                apply activeCount_eq_zero_of_any_false
                cases hb : added.any (isActFor sid course.id) with
                | false => rfl
                | true =>
                  exfalso
                  rcases List.any_eq_true.mp hb with ⟨e, he, hpe⟩
                  simp only [isActFor, Bool.and_eq_true, beq_iff_eq] at hpe
                  apply hadded e he hpe.1.1
                  rw [hpe.1.2, hcourse]
                  exact List.mem_cons_self _ _
              have h3 : activeCount
                  [(⟨sid, course.id, a.classId, true⟩ : EnrollmentRow)] s c
                  = 1 := by
                rw [hsc.1, hsc.2]
                unfold activeCount
                simp [List.filter, isActFor]
              rw [h1, h2, h3]
            · have h3 : activeCount
                  [(⟨sid, course.id, a.classId, true⟩ : EnrollmentRow)] s c
                  = 0 := by
                unfold activeCount
                have hpf : isActFor s c
                    (⟨sid, course.id, a.classId, true⟩ : EnrollmentRow)
                    = false := by
                  simp only [isActFor]
                  rcases not_and_or.mp hsc with hs | hc
                  · simp [beq_eq_false_iff_ne.mpr (fun he => hs he.symm)]
                  · simp [beq_eq_false_iff_ne.mpr (fun he => hc he.symm)]
                simp [List.filter, hpf]
              rw [h3, Nat.add_zero]
              have hgoal := hInv s c
              rw [activeCount_append] at hgoal
              exact hgoal

/-- Every processed assignment ends up with an active enrollment row: the
update branch re-activates the mapped row (which stays active through the
rest of the loop), the insert branch appends a fresh active row. -/
theorem reconcileLoop_creates (db : AppDB) (sid : Nat) (domain : List Nat)
    (as : List CourseAssignment)
    (orig added orig2 added2 : List EnrollmentRow)
    (hdom2 : ∀ a ∈ as, domain.contains a.courseId = true →
      orig.any (isActFor sid a.courseId) = true)
    (h : reconcileLoop db sid domain orig added as = .ok (orig2, added2)) :
    ∀ a ∈ as, ∃ e ∈ orig2 ++ added2, isActFor sid a.courseId e = true := by
  induction as generalizing orig added with
  | nil => intro a ha; cases ha
  | cons a0 rest ih =>
    intro a ha
    unfold reconcileLoop at h
    split at h
    · cases h
    next course hfc =>
      have hcourse : course.id = a0.courseId := by
        simpa using List.find?_some hfc
      split at h
      · cases h
      next =>
        split at h
        next hcont =>
          have hskel : (updateLast (isActFor sid course.id)
              (fun e => { e with isActive := true, classId := a0.classId })
              orig).map skel = orig.map skel :=
            updateLast_map (isActFor sid course.id)
              (fun e => { e with isActive := true, classId := a0.classId })
              skel (reconcile_update_skel sid course.id a0.classId) orig
          rcases List.mem_cons.mp ha with rfl | har
          · have hany : orig.any (isActFor sid a.courseId) = true := by
              apply hdom2 a (List.mem_cons_self a rest)
              rw [← hcourse]
              exact hcont
            have hany1 : (updateLast (isActFor sid course.id)
                (fun e => { e with isActive := true, classId := a.classId })
                orig).any (isActFor sid a.courseId) = true := by
              rw [any_congr_skel _ _ hskel]
              exact hany
            have hskel2 := reconcileLoop_map_skel db sid domain rest _ _
              orig2 added2 h
            have hany2 : orig2.any (isActFor sid a.courseId) = true := by
              rw [any_congr_skel _ _ hskel2]
              exact hany1
            rcases List.any_eq_true.mp hany2 with ⟨e, he, hpe⟩
            exact ⟨e, List.mem_append_left _ he, hpe⟩
          · refine ih _ _ (fun a2 ha2 hc2 => ?_) h a har
            rw [any_congr_skel _ _ hskel]
            exact hdom2 a2 (List.mem_cons_of_mem _ ha2) hc2
        next hcont =>
          rcases List.mem_cons.mp ha with rfl | har
          · rcases reconcileLoop_added_suffix db sid domain rest _ _
              orig2 added2 h with ⟨extra, hx⟩
            refine ⟨⟨sid, course.id, a.classId, true⟩, ?_, ?_⟩
            · apply List.mem_append_right
              rw [hx]
              exact List.mem_append_left _
                (List.mem_append_right _ (List.mem_singleton.mpr rfl))
            · simp [isActFor, hcourse]
          · exact ih _ _ (fun a2 ha2 hc2 =>
              hdom2 a2 (List.mem_cons_of_mem _ ha2) hc2) h a har

/-- Deactivation can only lose active rows, never gain them. -/
theorem activeCount_deactivateMissing_le (db : AppDB) (sid : Nat)
    (incoming : List Nat) (s c : Nat) :
    activeCount (deactivateMissing db sid incoming) s c
      ≤ activeCount db.enrollments s c := by
  unfold activeCount deactivateMissing
  rw [← List.countP_eq_length_filter, ← List.countP_eq_length_filter,
    List.countP_map]
  apply List.countP_mono_left
  intro e _ hpe
  simp only [Function.comp] at hpe
  by_cases hcond : (e.studentId == sid && e.isActive
      && !(incoming.contains e.courseId)) = true
  · rw [if_pos hcond] at hpe
    simp only [isActFor, Bool.and_eq_true] at hpe
    cases hpe.2
  · rw [if_neg hcond] at hpe
    exact hpe

/-- A course outside the `existing_map` key set has no active row after
the deactivation pass. -/
theorem deactivateMissing_hdom (db : AppDB) (sid : Nat)
    (incoming : List Nat) :
    ∀ c, ¬ c ∈ activeCourseIds db sid →
      (deactivateMissing db sid incoming).any (isActFor sid c) = false := by
  intro c hc
  cases hb : (deactivateMissing db sid incoming).any (isActFor sid c) with
  | false => rfl
  | true =>
    exfalso
    rcases List.any_eq_true.mp hb with ⟨x, hx, hpx⟩
    unfold deactivateMissing at hx
    rcases List.mem_map.mp hx with ⟨e, he, hex⟩
    rw [← hex] at hpx
    by_cases hcond : (e.studentId == sid && e.isActive
        && !(incoming.contains e.courseId)) = true
    · rw [if_pos hcond] at hpx
      simp only [isActFor, Bool.and_eq_true] at hpx
      cases hpx.2
    · rw [if_neg hcond] at hpx
      simp only [isActFor, Bool.and_eq_true, beq_iff_eq] at hpx
      apply hc
      unfold activeCourseIds
      refine List.mem_map.mpr ⟨e, List.mem_filter.mpr ⟨he, ?_⟩, hpx.1.2⟩
      simp only [Bool.and_eq_true, beq_iff_eq]
      exact ⟨hpx.1.1, hpx.2⟩

/-- A course inside the `existing_map` key set that is also in the
incoming list keeps its active row through the deactivation pass. -/
theorem deactivateMissing_hdom2 (db : AppDB) (sid : Nat)
    (as : List CourseAssignment) :
    ∀ a ∈ as, (activeCourseIds db sid).contains a.courseId = true →
      (deactivateMissing db sid (as.map (fun x => x.courseId))).any
        (isActFor sid a.courseId) = true := by
  intro a ha hcont
  have hmem : a.courseId ∈ activeCourseIds db sid := List.elem_iff.mp hcont
  unfold activeCourseIds at hmem
  rcases List.mem_map.mp hmem with ⟨e, hef, heq⟩
  rcases List.mem_filter.mp hef with ⟨he, hpe⟩
  simp only [Bool.and_eq_true, beq_iff_eq] at hpe
  have hin : ((as.map (fun x => x.courseId)).contains e.courseId) = true := by
    apply List.elem_iff.mpr
    rw [heq]
    exact List.mem_map.mpr ⟨a, ha, rfl⟩
  have hcond : ¬ (e.studentId == sid && e.isActive
      && !((as.map (fun x => x.courseId)).contains e.courseId)) = true := by
    rw [hin]
    simp
  apply List.any_eq_true.mpr
  unfold deactivateMissing
  refine ⟨_, List.mem_map.mpr ⟨e, he, rfl⟩, ?_⟩
  rw [if_neg hcond]
  simp only [isActFor, Bool.and_eq_true, beq_iff_eq]
  exact ⟨⟨hpe.1, heq⟩, hpe.2⟩

/-- Inversion of a successful `update_student_enrollments` call. -/
theorem update_student_enrollments_ok (db : AppDB) (sid : Nat)
    (as : List CourseAssignment) (db2 : AppDB)
    (h : update_student_enrollments db sid as = .ok db2) :
    ∃ orig2 added2,
      reconcileLoop db sid (activeCourseIds db sid)
        (deactivateMissing db sid (as.map (fun a => a.courseId))) [] as
        = .ok (orig2, added2)
      ∧ db2.enrollments = orig2 ++ added2 := by
  unfold update_student_enrollments at h
  split at h
  · cases h
  next student hfu =>
    have hid : student.id = sid := by
      have := List.find?_some hfu
      simp only [Bool.and_eq_true, beq_iff_eq] at this
      exact this.1
    rw [hid] at h
    split at h
    · cases h
    next orig2 added2 heq =>
      simp only [Except.ok.injEq] at h
      exact ⟨orig2, added2, heq, by rw [← h]⟩

/-- Inversion of a successful `approve_user` call, projected onto the
enrollments table: either the user was not a student and the table is
unchanged, or the student assignment loop produced the new table. -/
theorem approve_user_ok_enrollments (db : AppDB) (uid : Nat)
    (pay : ApprovePayload) (db2 : AppDB)
    (h : approve_user db uid pay = .ok db2) :
    db2.enrollments = db.enrollments
    ∨ ∃ user orig2 added2,
        db.users.find? (fun u => u.id == uid) = some user
        ∧ user.id = uid
        ∧ approveAssignLoop db user.id db.enrollments []
            pay.courseAssignments = .ok (orig2, added2)
        ∧ db2.enrollments = orig2 ++ added2 := by
  unfold approve_user at h
  split at h
  · cases h
  next user hfu =>
    split at h
    · cases h
    next hguard =>
      split at h
      · cases h
      next orig addedEnr heq =>
        split at h
        · cases h
        next addedLinks hleq =>
          split at h
          next hok =>
            simp only [Except.ok.injEq] at h
            unfold approveEnrollPart at heq
            by_cases hrs : (user.role == "student") = true
            · rw [if_pos hrs] at heq
              refine Or.inr ⟨user, orig, addedEnr, hfu, ?_, heq, by rw [← h]⟩
              simpa using List.find?_some hfu
            · rw [if_neg hrs] at heq
              simp only [Except.ok.injEq, Prod.mk.injEq] at heq
              refine Or.inl ?_
              rw [← h]
              show orig ++ addedEnr = db.enrollments
              rw [← heq.1, ← heq.2, List.append_nil]
          next => cases h

/-- A successful `approve_user` with a duplicate-free course-assignment
list preserves the at-most-one-active-enrollment invariant. -/
theorem approve_user_preserves_inv (db : AppDB) (uid : Nat)
    (pay : ApprovePayload) (db2 : AppDB)
    (hnd : (pay.courseAssignments.map (fun a => a.courseId)).Nodup)
    (h : approve_user db uid pay = .ok db2) (hInv : EnrInv db) :
    EnrInv db2 := by
  rcases approve_user_ok_enrollments db uid pay db2 h with heq |
    ⟨user, orig2, added2, hfu, huid, hloop, henr⟩
  · intro s c
    rw [heq]
    exact hInv s c
  · intro s c
    rw [henr]
    refine approveAssignLoop_inv db user.id pay.courseAssignments
      db.enrollments [] orig2 added2 hnd
      (fun e he => (List.not_mem_nil e he).elim) hloop ?_ s c
    intro s2 c2
    rw [List.append_nil]
    exact hInv s2 c2

/-- A successful `update_student_enrollments` with a duplicate-free
course-assignment list preserves the invariant. -/
theorem update_student_enrollments_preserves_inv (db : AppDB) (sid : Nat)
    (as : List CourseAssignment) (db2 : AppDB)
    (hnd : (as.map (fun a => a.courseId)).Nodup)
    (h : update_student_enrollments db sid as = .ok db2) (hInv : EnrInv db) :
    EnrInv db2 := by
  rcases update_student_enrollments_ok db sid as db2 h with
    ⟨orig2, added2, hloop, henr⟩
  intro s c
  rw [henr]
  refine reconcileLoop_inv db sid (activeCourseIds db sid) as
    (deactivateMissing db sid (as.map (fun a => a.courseId))) [] orig2 added2
    hnd (fun e he => (List.not_mem_nil e he).elim)
    (deactivateMissing_hdom db sid (as.map (fun a => a.courseId)))
    hloop ?_ s c
  intro s2 c2
  rw [List.append_nil]
  exact Nat.le_trans
    (Nat.le_of_eq rfl)
    (Nat.le_trans (activeCount_deactivateMissing_le db sid
      (as.map (fun a => a.courseId)) s2 c2) (hInv s2 c2))

/-- One admin call with a duplicate-free payload preserves the
invariant; a failed call leaves the state unchanged. -/
theorem runOp_preserves_inv (db : AppDB) (op : AdminOp)
    (hop : OpNodup op) (hInv : EnrInv db) : EnrInv (runOp db op) := by
  cases op with
  | approve uid pay =>
    simp only [runOp]
    cases hres : approve_user db uid pay with
    | ok db2 => exact approve_user_preserves_inv db uid pay db2 hop hres hInv
    | error e => exact hInv
  | updateEnrollments sid as =>
    simp only [runOp]
    cases hres : update_student_enrollments db sid as with
    | ok db2 =>
      exact update_student_enrollments_preserves_inv db sid as db2 hop hres hInv
    | error e => exact hInv

theorem runOps_preserves_inv (ops : List AdminOp) (db : AppDB)
    (hops : ∀ op ∈ ops, OpNodup op) (hInv : EnrInv db) :
    EnrInv (runOps db ops) := by
  induction ops generalizing db with
  | nil => exact hInv
  | cons op rest ih =>
    exact ih (runOp db op)
      (fun o ho => hops o (List.mem_cons_of_mem _ ho))
      (runOp_preserves_inv db op (hops op (List.mem_cons_self _ _)) hInv)

/-- The database of the C2 counterexample: active student 5, course 1,
no enrollments yet — the invariant holds trivially. -/
def c2DB : AppDB :=
  ⟨[⟨5, "s@x", "h", "student", true⟩], [⟨1, 9⟩], [], [], [], [], [], [],
    [], []⟩

/-- Counterexample to C2 as stated: from an invariant-satisfying state,
a single `updateStudentEnrollments` call whose payload repeats course 1
inserts two active enrollment rows for (student 5, course 1): the Python
`existing_map` is built once before the loop and never sees the first
pending insert (`autoflush=False`), so the second occurrence inserts
again. -/
theorem claim_C2_counterexample :
    EnrInv c2DB
    ∧ activeCount (runOps c2DB
        [.updateEnrollments 5 [⟨1, none⟩, ⟨1, none⟩]]).enrollments 5 1
      = 2 :=
  ⟨fun _ _ => Nat.zero_le 1, rfl⟩

/-- C2 amended: the at-most-one-active-enrollment invariant holds after
any sequence of `approveUser` and `updateStudentEnrollments` calls in
which no single call's course-assignment list repeats a course id; and
re-enrollment updates in place — when the student already has an active
enrollment for a course, a successful `approveUser` leaves the total
number of enrollment rows for that (student, course) pair unchanged
rather than inserting a duplicate. -/
theorem claim_C2_amended_invariant :
    (∀ (db : AppDB) (ops : List AdminOp),
      EnrInv db → (∀ op ∈ ops, OpNodup op) → EnrInv (runOps db ops))
    ∧ (∀ (db : AppDB) (uid : Nat) (pay : ApprovePayload) (db2 : AppDB)
        (c : Nat),
      approve_user db uid pay = .ok db2 →
      db.enrollments.any (isActFor uid c) = true →
      rowCount db2.enrollments uid c = rowCount db.enrollments uid c) := by
  constructor
  · intro db ops hInv hops
    exact runOps_preserves_inv ops db hops hInv
  · intro db uid pay db2 c h hany
    rcases approve_user_ok_enrollments db uid pay db2 h with heq |
      ⟨user, orig2, added2, hfu, huid, hloop, henr⟩
    · rw [heq]
    · rw [henr, ← huid]
      have hany2 : db.enrollments.any (isActFor user.id c) = true := by
        rw [huid]
        exact hany
      have hrc := approveAssignLoop_rowCount db user.id pay.courseAssignments
        db.enrollments [] orig2 added2 c hany2 hloop
      rw [List.append_nil] at hrc
      exact hrc

/-- Witness for C2 amended: a two-call sequence (approve student 5 into
course 1, then reconcile to course 1 with a class pointer) keeps the
invariant, and a repeated approval of an enrolled student keeps a single
enrollment row. -/
theorem claim_C2_amended_invariant_witness :
    EnrInv (runOps
      ⟨[⟨5, "s@x", "h", "student", false⟩], [⟨1, 9⟩], [⟨2, 1⟩], [], [], [],
        [], [], [], []⟩
      [.approve 5 ⟨[⟨1, none⟩], [], true⟩,
        .updateEnrollments 5 [⟨1, some 2⟩]])
    ∧ rowCount
      (⟨[⟨5, "s@x", "h", "student", true⟩], [⟨1, 9⟩], [⟨2, 1⟩],
        [⟨5, 1, none, true⟩], [], [], [], [], [], []⟩ : AppDB).enrollments 5 1
      = rowCount
      (⟨[⟨5, "s@x", "h", "student", false⟩], [⟨1, 9⟩], [⟨2, 1⟩],
        [⟨5, 1, none, true⟩], [], [], [], [], [], []⟩ : AppDB).enrollments
        5 1 := by
  constructor
  · apply claim_C2_amended_invariant.1
    · intro s c
      exact Nat.zero_le 1
    · intro op hop
      rcases List.mem_cons.mp hop with rfl | hop2
      · show ((⟨[⟨1, none⟩], [], true⟩ :
          ApprovePayload).courseAssignments.map (fun a => a.courseId)).Nodup
        decide
      · rcases List.mem_cons.mp hop2 with rfl | hop3
        · show (([⟨1, some 2⟩] : List CourseAssignment).map
            (fun a => a.courseId)).Nodup
          decide
        · cases hop3
  · exact claim_C2_amended_invariant.2
      ⟨[⟨5, "s@x", "h", "student", false⟩], [⟨1, 9⟩], [⟨2, 1⟩],
        [⟨5, 1, none, true⟩], [], [], [], [], [], []⟩ 5
      ⟨[⟨1, none⟩], [], true⟩
      ⟨[⟨5, "s@x", "h", "student", true⟩], [⟨1, 9⟩], [⟨2, 1⟩],
        [⟨5, 1, none, true⟩], [], [], [], [], [], []⟩ 1 rfl (by decide)

/-! ### Full-replace semantics of `update_student_enrollments` (C3) -/

/-- C3: `updateStudentEnrollments` is a full replace — every existing
active enrollment whose course is not among the incoming course ids is
deactivated in place (the row is retained, never deleted), every
incoming assignment ends with an active enrollment row, and the empty
assignment list deactivates every active enrollment of the student while
creating no row. -/
theorem claim_C3_full_replace :
    ∀ (db : AppDB) (sid : Nat) (as : List CourseAssignment) (db2 : AppDB),
      update_student_enrollments db sid as = .ok db2 →
      db.enrollments.length ≤ db2.enrollments.length
      ∧ (∀ i (hi : i < db.enrollments.length),
          (db.enrollments.get ⟨i, hi⟩).studentId = sid →
          (db.enrollments.get ⟨i, hi⟩).isActive = true →
          ¬ (db.enrollments.get ⟨i, hi⟩).courseId
              ∈ as.map (fun a => a.courseId) →
          ∃ hi2 : i < db2.enrollments.length,
            (db2.enrollments.get ⟨i, hi2⟩).studentId
              = (db.enrollments.get ⟨i, hi⟩).studentId
            ∧ (db2.enrollments.get ⟨i, hi2⟩).courseId
              = (db.enrollments.get ⟨i, hi⟩).courseId
            ∧ (db2.enrollments.get ⟨i, hi2⟩).isActive = false)
      ∧ (∀ a ∈ as, ∃ e ∈ db2.enrollments, isActFor sid a.courseId e = true)
      ∧ (as = [] →
          db2.enrollments.length = db.enrollments.length
          ∧ ∀ e ∈ db2.enrollments, e.studentId = sid →
              e.isActive = false) := by
  intro db sid as db2 h
  rcases update_student_enrollments_ok db sid as db2 h with
    ⟨orig2, added2, hloop, henr⟩
  have hskelmap := reconcileLoop_map_skel db sid (activeCourseIds db sid) as
    (deactivateMissing db sid (as.map (fun a => a.courseId))) [] orig2 added2
    hloop
  have hlen0 : (deactivateMissing db sid
      (as.map (fun a => a.courseId))).length = db.enrollments.length := by
    unfold deactivateMissing
    exact List.length_map _ _
  have hlen2 : orig2.length = db.enrollments.length := by
    have := congrArg List.length hskelmap
    rw [List.length_map, List.length_map] at this
    rw [this, hlen0]
  refine ⟨?_, ?_, ?_, ?_⟩
  · rw [henr, List.length_append, ← hlen2]
    exact Nat.le_add_right _ _
  · intro i hi hstu hact hnc
    have hi2o : i < orig2.length := by rw [hlen2]; exact hi
    have hi2 : i < db2.enrollments.length := by
      rw [henr, List.length_append]
      exact Nat.lt_of_lt_of_le hi2o (Nat.le_add_right _ _)
    refine ⟨hi2, ?_⟩
    have hiv : i < (deactivateMissing db sid
        (as.map (fun a => a.courseId))).length := by
      rw [hlen0]; exact hi
    have hcontf : ((as.map (fun a => a.courseId)).contains
        (db.enrollments.get ⟨i, hi⟩).courseId) = false := by
      cases hb : (as.map (fun a => a.courseId)).contains
          (db.enrollments.get ⟨i, hi⟩).courseId with
      | false => rfl
      | true => exact absurd (List.elem_iff.mp hb) hnc
    have hcond : ((db.enrollments.get ⟨i, hi⟩).studentId == sid
        && (db.enrollments.get ⟨i, hi⟩).isActive
        && !((as.map (fun a => a.courseId)).contains
          (db.enrollments.get ⟨i, hi⟩).courseId)) = true := by
      rw [hstu, hact, hcontf]
      simp
    have hq2 : db2.enrollments[i]? = some (orig2.get ⟨i, hi2o⟩) := by
      rw [henr, List.getElem?_append_left hi2o]
      exact List.getElem?_eq_getElem hi2o
    have hget2 : db2.enrollments.get ⟨i, hi2⟩ = orig2.get ⟨i, hi2o⟩ := by
      have h5 := List.getElem?_eq_getElem hi2
      rw [hq2] at h5
      injection h5 with h5
      exact h5.symm
    have hskel_i : skel (orig2.get ⟨i, hi2o⟩)
        = skel ((deactivateMissing db sid
          (as.map (fun a => a.courseId))).get ⟨i, hiv⟩) := by
      have hc := congrArg (fun l => l[i]?) hskelmap
      simp only [List.getElem?_map] at hc
      rw [List.getElem?_eq_getElem hi2o, List.getElem?_eq_getElem hiv] at hc
      simp only [Option.map_some'] at hc
      injection hc
    have hdeact : (deactivateMissing db sid
        (as.map (fun a => a.courseId))).get ⟨i, hiv⟩
        = { db.enrollments.get ⟨i, hi⟩ with isActive := false } := by
      have hq : (deactivateMissing db sid (as.map (fun a => a.courseId)))[i]?
          = some (if (db.enrollments.get ⟨i, hi⟩).studentId == sid
                && (db.enrollments.get ⟨i, hi⟩).isActive
                && !((as.map (fun a => a.courseId)).contains
                  (db.enrollments.get ⟨i, hi⟩).courseId) then
              { db.enrollments.get ⟨i, hi⟩ with isActive := false }
            else db.enrollments.get ⟨i, hi⟩) := by
        unfold deactivateMissing
        rw [List.getElem?_map, List.getElem?_eq_getElem hi]
        rfl
      rw [List.getElem?_eq_getElem hiv] at hq
      injection hq with hq
      rw [List.get_eq_getElem, hq, if_pos hcond]
    have hfinal : skel (db2.enrollments.get ⟨i, hi2⟩)
        = ((db.enrollments.get ⟨i, hi⟩).studentId,
          (db.enrollments.get ⟨i, hi⟩).courseId, false) := by
      rw [hget2, hskel_i, hdeact]
      rfl
    have h1 := congrArg Prod.fst hfinal
    have h2 := congrArg (fun t => t.2.1) hfinal
    have h3 := congrArg (fun t => t.2.2) hfinal
    exact ⟨h1, h2, h3⟩
  · intro a ha
    rcases reconcileLoop_creates db sid (activeCourseIds db sid) as
      (deactivateMissing db sid (as.map (fun a => a.courseId))) [] orig2
      added2 (deactivateMissing_hdom2 db sid as) hloop a ha with ⟨e, he, hpe⟩
    rw [henr]
    exact ⟨e, he, hpe⟩
  · intro hempty
    subst hempty
    unfold reconcileLoop at hloop
    simp only [Except.ok.injEq, Prod.mk.injEq] at hloop
    have henr0 : db2.enrollments = deactivateMissing db sid [] := by
      rw [henr, ← hloop.1, ← hloop.2, List.append_nil]
      rfl
    constructor
    · rw [henr0]
      unfold deactivateMissing
      exact List.length_map _ _
    · intro e he hstu
      rw [henr0] at he
      unfold deactivateMissing at he
      rcases List.mem_map.mp he with ⟨e0, he0, hee⟩
      by_cases hcond : (e0.studentId == sid && e0.isActive
          && !(([] : List Nat).contains e0.courseId)) = true
      · rw [if_pos hcond] at hee
        rw [← hee]
      · rw [if_neg hcond] at hee
        subst hee
        cases hb : e0.isActive with
        | false => rfl
        | true =>
          exfalso
          apply hcond
          rw [hstu, hb]
          simp

/-- Pre-state of the C3 witness: student 5 actively enrolled in courses 1
and 2, courses 1–3 exist. -/
def c3DB : AppDB :=
  ⟨[⟨5, "s@x", "h", "student", true⟩], [⟨1, 9⟩, ⟨2, 9⟩, ⟨3, 9⟩], [],
    [⟨5, 1, none, true⟩, ⟨5, 2, none, true⟩], [], [], [], [], [], []⟩

/-- Witness for C3: reconciling student 5 to courses [2, 3] keeps both
rows and adds one (course 1 deactivated in place, course 3 created
active), and reconciling to the empty list deactivates everything while
creating nothing. -/
theorem claim_C3_full_replace_witness :
    (∃ db2 : AppDB,
      update_student_enrollments c3DB 5 [⟨2, none⟩, ⟨3, none⟩] = .ok db2
      ∧ c3DB.enrollments.length ≤ db2.enrollments.length
      ∧ (∃ hi2 : 0 < db2.enrollments.length,
          (db2.enrollments.get ⟨0, hi2⟩).studentId = 5
          ∧ (db2.enrollments.get ⟨0, hi2⟩).courseId = 1
          ∧ (db2.enrollments.get ⟨0, hi2⟩).isActive = false)
      ∧ (∃ e ∈ db2.enrollments, isActFor 5 3 e = true))
    ∧ (∃ db3 : AppDB,
      update_student_enrollments c3DB 5 [] = .ok db3
      ∧ db3.enrollments.length = c3DB.enrollments.length
      ∧ ∀ e ∈ db3.enrollments, e.studentId = 5 → e.isActive = false) := by
  constructor
  · refine ⟨⟨[⟨5, "s@x", "h", "student", true⟩], [⟨1, 9⟩, ⟨2, 9⟩, ⟨3, 9⟩],
      [], [⟨5, 1, none, false⟩, ⟨5, 2, none, true⟩, ⟨5, 3, none, true⟩],
      [], [], [], [], [], []⟩, rfl, ?_⟩
    have hmain := claim_C3_full_replace c3DB 5 [⟨2, none⟩, ⟨3, none⟩]
      ⟨[⟨5, "s@x", "h", "student", true⟩], [⟨1, 9⟩, ⟨2, 9⟩, ⟨3, 9⟩],
        [], [⟨5, 1, none, false⟩, ⟨5, 2, none, true⟩, ⟨5, 3, none, true⟩],
        [], [], [], [], [], []⟩ rfl
    refine ⟨hmain.1, ?_, ?_⟩
    · have h0 := hmain.2.1 0 (by decide) rfl rfl (by decide)
      exact h0
    · exact hmain.2.2.1 ⟨3, none⟩ (by decide)
  · refine ⟨⟨[⟨5, "s@x", "h", "student", true⟩], [⟨1, 9⟩, ⟨2, 9⟩, ⟨3, 9⟩],
      [], [⟨5, 1, none, false⟩, ⟨5, 2, none, false⟩],
      [], [], [], [], [], []⟩, rfl, ?_⟩
    have hmain := claim_C3_full_replace c3DB 5 []
      ⟨[⟨5, "s@x", "h", "student", true⟩], [⟨1, 9⟩, ⟨2, 9⟩, ⟨3, 9⟩],
        [], [⟨5, 1, none, false⟩, ⟨5, 2, none, false⟩],
        [], [], [], [], [], []⟩ rfl
    exact hmain.2.2.2 rfl
